import Mathlib

/-!
# RS485 stream server: shallow embedding of the bridging core

The repository holds two near-duplicate implementations of `RS485StreamServer`:

* `components/rs485_stream_server/rs485_stream_server.cpp`, which drives the
  transmit-enable line through a binary output (namespace `BinaryOutput` below);
* `rs485_stream_server/rs485_stream_server.cpp`, which drives a raw digital pin
  (namespace `RawPin` below).

Member variables of the C++ class become fields of `Server`; every member function
becomes a pure function on `Server` that also returns what it did to the outside
world (bytes handed to a TCP client, things done to the serial line).  Sizes are
`size_t` in the source; every size that occurs is bounded by a few hundred, so
natural numbers are exact.  Payload bytes are never inspected by the code and are
kept as natural numbers.  Logging and `yield()` have no effect on the members and
are left out.
-/

namespace RS485StreamServer

/-! ## Constants (rs485_stream_server.h, lines 82 and 93; loop(), line 90) -/

/-- Internal limit of the application-level UART RX buffer. -/
def MAX_UART_RX_BUFFER_SIZE_ : Nat := 256

/-- Largest chunk the raw-pin variant asks of the UART in one tick. -/
def UART_READ_CHUNK_SIZE : Nat := 64

/-- Largest number of bytes the binary-output variant reads in one tick. -/
def MAX_BYTES_PER_LOOP : Nat := 64

/-! ## Data model -/

/-- What the bridge can see of one `AsyncClient`: the answers of `connected()`,
`canSend()` and `space()`, and the receive timeout given to `setRxTimeout`.
The field `id` stands for the pointer value. -/
structure AsyncClient where
  id : Nat
  connected : Bool
  canSend : Bool
  space : Nat
  rx_timeout_s : Nat
  deriving DecidableEq

/-- The members of `RS485StreamServer` that the bridging code reads or writes,
together with the two external devices it talks to: the pending receive bytes of
the UART (`uart_rx`, what `available()` counts and `read()` pops) and the level of
the transmit-enable line (`tx_enable_level`). -/
structure Server where
  clients_ : List AsyncClient
  uart_rx_buffer_ : List Nat
  transmitting_ : Bool
  tx_enable_configured : Bool
  tx_enable_delay_us_ : Nat
  tx_disable_delay_us_ : Nat
  client_timeout_ms_ : Nat
  temp_uart_chunk_buffer_ : List Nat
  uart_rx : List Nat
  tx_enable_level : Bool
  deriving DecidableEq

/-- Things `handle_data` does to the serial side, in the order it does them. -/
inductive Effect where
  | assert
  | deassert
  | delay (us : Nat)
  | write (bytes : List Nat)
  | flush
  deriving DecidableEq

/-- Calls a handler makes on an `AsyncClient`: `close(now)` on the client with the
given pointer. -/
inductive ClientCall where
  | close (client : Nat) (now : Bool)
  deriving DecidableEq

/-- What one `loop()` call did to the outside: the bytes it took from the UART and
the `add()`/`send()` calls it made, as pairs of client id and byte block. -/
structure Tick where
  ingested : List Nat
  enqueued : List (Nat × List Nat)
  deriving DecidableEq

/-! ## The erase–remove idiom used by `cleanup_disconnected_clients`

`clients_.erase(std::remove_if(begin, end, pred), end)`: `remove_if` compacts the
elements that fail `pred` to the front with a read cursor and a write cursor and
returns the new logical end; `erase` cuts the vector there. -/

/-- `std::find_if` from position `i`: the first position at or after `i` whose
element satisfies `pred`, or the size of the vector. -/
def find_if {α : Type} (pred : α → Bool) : List α → Nat → Nat
  | [], i => i
  | x :: xs, i => if pred x then i else find_if pred xs (i + 1)

/-- The copying loop of `std::remove_if`: `i` is the read cursor, `first` the write
cursor; `fuel` bounds the number of iterations. -/
def remove_if_loop {α : Type} (pred : α → Bool) : Nat → List α → Nat → Nat → List α × Nat
  | 0, v, first, _ => (v, first)
  | fuel + 1, v, first, i =>
    match v[i]? with
    | none => (v, first)
    | some x =>
      if pred x then remove_if_loop pred fuel v first (i + 1)
      else remove_if_loop pred fuel (v.set first x) (first + 1) (i + 1)

/-- `std::remove_if` over the whole vector: the vector after the moves and the
returned new end. -/
def remove_if {α : Type} (pred : α → Bool) (v : List α) : List α × Nat :=
  let first := find_if pred v 0
  if first = v.length then (v, first)
  else remove_if_loop pred v.length v first (first + 1)

/-- `vector::erase(pos, end())`. -/
def erase_to_end {α : Type} (v : List α) (pos : Nat) : List α := v.take pos

/-- `RS485StreamServer::cleanup_disconnected_clients` (same text in both variants). -/
def cleanup_disconnected_clients (s : Server) : Server :=
  let r := remove_if (fun c : AsyncClient => !c.connected) s.clients_
  { s with clients_ := erase_to_end r.1 r.2 }

/-- `RS485StreamServer::handle_new_client` (same text in both variants); `none` is
the null pointer.  Registering the four callbacks changes no member; what the
callbacks do when the network stack fires them is the business of the handlers. -/
def handle_new_client (s : Server) (client : Option AsyncClient) : Server :=
  match client with
  | none => s
  | some c =>
    let c1 := if s.client_timeout_ms_ > 0 then
        { c with rx_timeout_s := s.client_timeout_ms_ / 1000 } else c
    { s with clients_ := s.clients_ ++ [c1] }

/-- `RS485StreamServer::handle_disconnect` (same text in both variants): a log line. -/
def handle_disconnect (s : Server) (_client : AsyncClient) : Server × List ClientCall :=
  (s, [])

/-- `RS485StreamServer::handle_error` (same text in both variants): a log line. -/
def handle_error (s : Server) (_client : AsyncClient) (_error : Int) :
    Server × List ClientCall :=
  (s, [])

/-- `RS485StreamServer::handle_timeout` (same text in both variants): a log line and
`client->close(true)`. -/
def handle_timeout (s : Server) (client : AsyncClient) (_time : Nat) :
    Server × List ClientCall :=
  (s, [ClientCall.close client.id true])

/-! ## Binary-output variant (components/rs485_stream_server) -/

namespace BinaryOutput

/-- The byte-by-byte `while` loop of `loop()` (lines 94-108): pending UART bytes,
staging buffer and `total_bytes_read` in, the same three out. -/
def read_loop : List Nat → List Nat → Nat → List Nat × List Nat × Nat
  | [], buf, total => ([], buf, total)
  | b :: rx, buf, total =>
    if buf.length < MAX_UART_RX_BUFFER_SIZE_ ∧ total < MAX_BYTES_PER_LOOP then
      read_loop rx (buf ++ [b]) (total + 1)
    else (b :: rx, buf, total)

/-- First block of `loop()` (lines 80-116): UART to staging buffer.  The second
component is the run of bytes taken from the UART. -/
def ingest (s : Server) : Server × List Nat :=
  if !s.transmitting_ && decide (s.uart_rx_buffer_.length < MAX_UART_RX_BUFFER_SIZE_) then
    if s.uart_rx.length > 0 then
      let r := read_loop s.uart_rx s.uart_rx_buffer_ 0
      ({ s with uart_rx := r.1, uart_rx_buffer_ := r.2.1 }, s.uart_rx.take r.2.2)
    else (s, [])
  else (s, [])

/-- The `for` loop over `clients_` (lines 130-157) with its flag
`all_data_sent_to_at_least_one_client`: the `add()` calls made and the final flag. -/
def dispatch_loop (buf : List Nat) : List AsyncClient → Bool → List (Nat × List Nat) × Bool
  | [], flag => ([], flag)
  | c :: cs, flag =>
    if c.connected && c.canSend then
      if c.space ≥ buf.length then
        let r := dispatch_loop buf cs flag
        ((c.id, buf) :: r.1, r.2)
      else ([], false)
    else if c.connected && !c.canSend then dispatch_loop buf cs false
    else dispatch_loop buf cs flag

/-- Second block of `loop()` (lines 119-164): staging buffer to TCP clients. -/
def dispatch (s : Server) : Server × List (Nat × List Nat) :=
  if !s.uart_rx_buffer_.isEmpty then
    if s.clients_.isEmpty then ({ s with uart_rx_buffer_ := [] }, [])
    else
      let r := dispatch_loop s.uart_rx_buffer_ s.clients_ true
      if r.2 then ({ s with uart_rx_buffer_ := [] }, r.1) else (s, r.1)
  else (s, [])

/-- `RS485StreamServer::loop`. -/
def loop (s : Server) : Server × Tick :=
  let a := ingest s
  let d := dispatch a.1
  (cleanup_disconnected_clients d.1, { ingested := a.2, enqueued := d.2 })

/-- `RS485StreamServer::handle_data`; `has_binary_output` is the compile-time
constant `HAS_BINARY_OUTPUT`. -/
def handle_data (has_binary_output : Bool) (s : Server) (tcp_data : List Nat) :
    Server × List Effect :=
  if s.transmitting_ then (s, [])
  else
    let s1 := { s with transmitting_ := true }
    let pre : Server × List Effect :=
      if s1.tx_enable_configured && has_binary_output then
        ({ s1 with tx_enable_level := true },
          [Effect.assert] ++
            (if s1.tx_enable_delay_us_ > 0 then [Effect.delay s1.tx_enable_delay_us_] else []))
      else (s1, [])
    let s2 := pre.1
    let post : Server × List Effect :=
      if s2.tx_enable_configured && has_binary_output then
        ({ s2 with tx_enable_level := false },
          (if s2.tx_disable_delay_us_ > 0 then [Effect.delay s2.tx_disable_delay_us_] else [])
            ++ [Effect.deassert])
      else (s2, [])
    ({ post.1 with transmitting_ := false },
      pre.2 ++ [Effect.write tcp_data, Effect.flush] ++ post.2)

end BinaryOutput

/-! ## Raw-pin variant (rs485_stream_server) -/

namespace RawPin

/-- First block of `loop()` (lines 60-74).  `read_array` belongs to the UART library,
outside this repository: it moves the requested `max_read` bytes into
`temp_uart_chunk_buffer_`, and `read_array_ret max_read` is the value the call hands
back, which the source stores in `len_read`.  The second component is the run of
bytes taken from the UART. -/
def ingest (read_array_ret : Nat → Nat) (s : Server) : Server × List Nat :=
  if !s.transmitting_ && decide (s.uart_rx_buffer_.length < MAX_UART_RX_BUFFER_SIZE_) then
    let available_uart := s.uart_rx.length
    if available_uart > 0 then
      let max_read := min (min available_uart UART_READ_CHUNK_SIZE)
        (MAX_UART_RX_BUFFER_SIZE_ - s.uart_rx_buffer_.length)
      if max_read > 0 then
        let chunk := s.uart_rx.take max_read
        let temp := chunk ++ s.temp_uart_chunk_buffer_.drop max_read
        let len_read := read_array_ret max_read
        let s1 := { s with uart_rx := s.uart_rx.drop max_read, temp_uart_chunk_buffer_ := temp }
        if len_read > 0 then
          ({ s1 with uart_rx_buffer_ := s1.uart_rx_buffer_ ++ temp.take len_read }, chunk)
        else (s1, chunk)
      else (s, [])
    else (s, [])
  else (s, [])

/-- The `for` loop over `clients_` (lines 84-105) with its flag. -/
def dispatch_loop (buf : List Nat) : List AsyncClient → Bool → List (Nat × List Nat) × Bool
  | [], flag => ([], flag)
  | c :: cs, flag =>
    if c.connected && c.canSend then
      if c.space ≥ buf.length then
        let r := dispatch_loop buf cs flag
        ((c.id, buf) :: r.1, r.2)
      else ([], false)
    else if c.connected && !c.canSend then ([], false)
    else dispatch_loop buf cs flag

/-- Second block of `loop()` (lines 77-116), with the size ceiling of line 111. -/
def dispatch (s : Server) : Server × List (Nat × List Nat) :=
  if !s.uart_rx_buffer_.isEmpty then
    if s.clients_.isEmpty then ({ s with uart_rx_buffer_ := [] }, [])
    else
      let r := dispatch_loop s.uart_rx_buffer_ s.clients_ true
      if r.2 then ({ s with uart_rx_buffer_ := [] }, r.1)
      else if s.uart_rx_buffer_.length > MAX_UART_RX_BUFFER_SIZE_ * 2 then
        ({ s with uart_rx_buffer_ := [] }, r.1)
      else (s, r.1)
  else (s, [])

/-- The path condition of the discard at line 113 of `loop()`: staging buffer non-empty,
registry non-empty, the pass ended with the flag cleared, and the size test of line 111
succeeds. -/
def ceiling_discard (s : Server) : Bool :=
  !s.uart_rx_buffer_.isEmpty && !s.clients_.isEmpty &&
    !(dispatch_loop s.uart_rx_buffer_ s.clients_ true).2 &&
    decide (s.uart_rx_buffer_.length > MAX_UART_RX_BUFFER_SIZE_ * 2)

/-- `RS485StreamServer::loop`. -/
def loop (read_array_ret : Nat → Nat) (s : Server) : Server × Tick :=
  let a := ingest read_array_ret s
  let d := dispatch a.1
  (cleanup_disconnected_clients d.1, { ingested := a.2, enqueued := d.2 })

/-- `RS485StreamServer::handle_data`. -/
def handle_data (s : Server) (tcp_data : List Nat) : Server × List Effect :=
  if !s.tx_enable_configured then (s, [])
  else if s.transmitting_ then (s, [])
  else
    let s1 := { s with transmitting_ := true }
    let s2 := { s1 with tx_enable_level := true }
    let s3 := { s2 with tx_enable_level := false }
    ({ s3 with transmitting_ := false },
      [Effect.assert, Effect.write tcp_data, Effect.flush, Effect.deassert])

end RawPin

/-! ## Runs: ticks interleaved with events from the UART and the network -/

/-- One thing that happens to the bridge: a `loop()` call, bytes arriving at the
UART, the server's accept callback, a client changing what `connected()`,
`canSend()` and `space()` answer, or one of a client's four callbacks (data,
disconnect, error, timeout).  Each runs to completion before the next begins. -/
inductive Event where
  | tick
  | serial (bytes : List Nat)
  | accept (client : Option AsyncClient)
  | client_change (id : Nat) (connected canSend : Bool) (space : Nat)
  | data (tcp_data : List Nat)
  | disconnect (client : AsyncClient)
  | error (client : AsyncClient) (code : Int)
  | timeout (client : AsyncClient) (time : Nat)
  deriving DecidableEq

/-- The network stack changes the answers of the client with pointer `id`. -/
def client_change (s : Server) (id : Nat) (connected canSend : Bool) (space : Nat) : Server :=
  { s with clients_ := s.clients_.map fun c =>
      if c.id = id then { c with connected := connected, canSend := canSend, space := space }
      else c }

/-- One step of a run, for a given `loop` and `handle_data`. -/
def step (loopF : Server → Server × Tick) (dataF : Server → List Nat → Server × List Effect)
    (s : Server) : Event → Server × Tick
  | .tick => loopF s
  | .serial bytes => ({ s with uart_rx := s.uart_rx ++ bytes }, ⟨[], []⟩)
  | .accept client => (handle_new_client s client, ⟨[], []⟩)
  | .client_change id connected canSend space =>
    (client_change s id connected canSend space, ⟨[], []⟩)
  | .data tcp_data => ((dataF s tcp_data).1, ⟨[], []⟩)
  | .disconnect client => ((handle_disconnect s client).1, ⟨[], []⟩)
  | .error client code => ((handle_error s client code).1, ⟨[], []⟩)
  | .timeout client time => ((handle_timeout s client time).1, ⟨[], []⟩)

/-- A whole run: the final state, and everything taken from the UART and handed to
clients, in order. -/
def run (loopF : Server → Server × Tick) (dataF : Server → List Nat → Server × List Effect) :
    Server → List Event → Server × Tick
  | s, [] => (s, ⟨[], []⟩)
  | s, e :: es =>
    let r := step loopF dataF s e
    let rest := run loopF dataF r.1 es
    (rest.1, ⟨r.2.ingested ++ rest.2.ingested, r.2.enqueued ++ rest.2.enqueued⟩)

/-- The bytes handed to the client with pointer `id`, blocks concatenated in order. -/
def delivered (id : Nat) (log : List (Nat × List Nat)) : List Nat :=
  ((log.filter fun p => p.1 == id).map Prod.snd).flatten

/-- A run of the binary-output variant. -/
def BinaryOutput.run (has_binary_output : Bool) : Server → List Event → Server × Tick :=
  RS485StreamServer.run BinaryOutput.loop (BinaryOutput.handle_data has_binary_output)

/-- A run of the raw-pin variant. -/
def RawPin.run (read_array_ret : Nat → Nat) : Server → List Event → Server × Tick :=
  RS485StreamServer.run (RawPin.loop read_array_ret) RawPin.handle_data

/-! ## Concrete states used in the examples -/

/-- A bridge at rest: nothing buffered, nothing pending on the UART, receive mode,
transmit-enable configured with zero switching delays, the default client timeout. -/
def idle_server (clients : List AsyncClient) (buf : List Nat) : Server :=
  { clients_ := clients, uart_rx_buffer_ := buf, transmitting_ := false,
    tx_enable_configured := true, tx_enable_delay_us_ := 0, tx_disable_delay_us_ := 0,
    client_timeout_ms_ := 300000, temp_uart_chunk_buffer_ := List.replicate 64 0,
    uart_rx := [], tx_enable_level := false }

/-- A connected, send-ready client with the given pointer and headroom. -/
def ready_client (id space : Nat) : AsyncClient :=
  { id := id, connected := true, canSend := true, space := space, rx_timeout_s := 0 }

/-- The `read_array` convention in which the call hands back the number of bytes read. -/
def read_array_count (n : Nat) : Nat := n

/-- The `read_array` convention in which the call hands back a success flag. -/
def read_array_flag (n : Nat) : Nat := if n > 0 then 1 else 0

/-- Two registered clients: `A` (pointer 1) with 500 bytes of headroom and `B`
(pointer 2) with none; `buf` is staged and nothing is pending on the UART. -/
def stalled_pair (buf : List Nat) : Server :=
  idle_server [ready_client 1 500, ready_client 2 0] buf

/-- A run in which `B` stalls for one tick: two bytes arrive and are dispatched while `B`
has no headroom, then `B` gets headroom, a third byte arrives and the next tick runs. -/
def retry_events : List Event :=
  [.serial [1, 2], .tick, .client_change 2 true true 500, .serial [3], .tick]

/-- The number of bytes the specification allots to the ingest block of one tick of the
binary-output variant: the smallest of the number of pending UART bytes, the per-tick
limit of 64, and the room left in the staging buffer. -/
def ingest_quota (s : Server) : Nat :=
  min s.uart_rx.length (min 64 (256 - s.uart_rx_buffer_.length))

/-- A registry of two clients that have both disconnected and are not reaped yet. -/
def stale_pair (buf : List Nat) : Server :=
  idle_server [{ ready_client 1 500 with connected := false },
    { ready_client 2 500 with connected := false }] buf

/-! ## The erase–remove idiom computes a filter -/

theorem take_succ_set_self {α : Type} (v : List α) (k : Nat) (x : α) (h : k < v.length) :
    (v.set k x).take (k + 1) = v.take k ++ [x] := by
  induction v generalizing k with
  | nil => simp at h
  | cons y ys ih =>
    cases k with
    | zero => simp
    | succ k => simpa using ih k (by simpa using h)

theorem remove_if_loop_take {α : Type} (pred : α → Bool) (fuel : Nat) (v : List α)
    (first i : Nat) (h1 : first ≤ i) (h2 : i ≤ v.length) (h3 : v.length - i ≤ fuel) :
    (remove_if_loop pred fuel v first i).1.take (remove_if_loop pred fuel v first i).2
      = v.take first ++ (v.drop i).filter (fun x => !pred x) := by
  induction fuel generalizing v first i with
  | zero =>
    have hi : v.length ≤ i := by omega
    simp [remove_if_loop, List.drop_eq_nil_of_le hi]
  | succ n ih =>
    unfold remove_if_loop
    by_cases hi : i < v.length
    · obtain ⟨x, hx⟩ : ∃ x, x = v[i] := ⟨_, rfl⟩
      have hget : v[i]? = some x := by rw [hx]; exact List.getElem?_eq_getElem hi
      have hdrop : v.drop i = x :: v.drop (i + 1) := by
        rw [hx]; exact List.drop_eq_getElem_cons hi
      rw [hget]
      by_cases hp : pred x = true
      · simp only [hp, if_true]
        rw [ih v first (i + 1) (by omega) (by omega) (by omega), hdrop, List.filter_cons]
        simp [hp]
      · have hpf : pred x = false := by simpa using hp
        simp only [hpf, Bool.false_eq_true, if_false]
        have hlen : (v.set first x).length = v.length := List.length_set ..
        have hf : first < v.length := by omega
        rw [ih (v.set first x) (first + 1) (i + 1) (by omega) (by rw [hlen]; omega)
          (by rw [hlen]; omega), hdrop]
        rw [List.drop_set_of_lt _ _ (by omega : first < i + 1), List.filter_cons,
          take_succ_set_self v first x hf]
        simp [hpf]
    · have hi2 : v.length ≤ i := by omega
      simp [List.getElem?_eq_none hi2, List.drop_eq_nil_of_le hi2]

theorem find_if_split {α : Type} (pred : α → Bool) (v : List α) (i : Nat) :
    ∃ k, find_if pred v i = i + k ∧ k ≤ v.length ∧
      (v.take k).filter (fun x => !pred x) = v.take k ∧
      (k < v.length → ∃ x, v.drop k = x :: v.drop (k + 1) ∧ pred x = true) := by
  induction v generalizing i with
  | nil => exact ⟨0, by simp [find_if]⟩
  | cons x xs ih =>
    by_cases hx : pred x = true
    · exact ⟨0, by simp [find_if, hx]⟩
    · obtain ⟨k, h1, h2, h3, h4⟩ := ih (i + 1)
      refine ⟨k + 1, ?_, ?_, ?_, ?_⟩
      · simp [find_if, hx, h1]; omega
      · simp; exact h2
      · simp [List.take_succ_cons, List.filter_cons, hx, h3]
      · intro hk
        have hk2 : k < xs.length := by simpa using hk
        simpa using h4 hk2

theorem erase_remove_if_eq_filter {α : Type} (pred : α → Bool) (v : List α) :
    erase_to_end (remove_if pred v).1 (remove_if pred v).2 = v.filter (fun x => !pred x) := by
  obtain ⟨k, h1, h2, h3, h4⟩ := find_if_split pred v 0
  have hk : find_if pred v 0 = k := by omega
  unfold remove_if erase_to_end
  simp only [hk]
  by_cases hend : k = v.length
  · simp only [hend, if_true]
    rw [hend] at h3
    simpa using h3.symm
  · simp only [hend, if_false]
    have hlt : k < v.length := by omega
    obtain ⟨x, hx, hp⟩ := h4 hlt
    rw [remove_if_loop_take pred v.length v k (k + 1) (by omega) (by omega) (by omega)]
    conv_rhs => rw [← List.take_append_drop k v, List.filter_append, h3, hx, List.filter_cons]
    simp [hp]

theorem cleanup_eq_filter (s : Server) :
    cleanup_disconnected_clients s
      = { s with clients_ := s.clients_.filter fun c => c.connected } := by
  unfold cleanup_disconnected_clients
  simp only [erase_remove_if_eq_filter, Bool.not_not]

/-! ## Frame lemmas: what each block of `loop()` leaves alone -/

theorem cleanup_buffer (s : Server) :
    (cleanup_disconnected_clients s).uart_rx_buffer_ = s.uart_rx_buffer_ := rfl

theorem cleanup_uart_rx (s : Server) :
    (cleanup_disconnected_clients s).uart_rx = s.uart_rx := rfl

theorem bo_ingest_clients (s : Server) :
    (BinaryOutput.ingest s).1.clients_ = s.clients_ := by
  unfold BinaryOutput.ingest
  split
  · split <;> rfl
  · rfl

theorem raw_ingest_clients (r : Nat → Nat) (s : Server) :
    (RawPin.ingest r s).1.clients_ = s.clients_ := by
  unfold RawPin.ingest
  split
  · dsimp only
    split
    · split
      · split <;> rfl
      · rfl
    · rfl
  · rfl

theorem bo_dispatch_cases (s : Server) :
    (BinaryOutput.dispatch s).1 = s ∨
      (BinaryOutput.dispatch s).1 = { s with uart_rx_buffer_ := [] } := by
  unfold BinaryOutput.dispatch
  split
  · split
    · exact Or.inr rfl
    · dsimp only
      split
      · exact Or.inr rfl
      · exact Or.inl rfl
  · exact Or.inl rfl

theorem raw_dispatch_cases (s : Server) :
    (RawPin.dispatch s).1 = s ∨
      (RawPin.dispatch s).1 = { s with uart_rx_buffer_ := [] } := by
  unfold RawPin.dispatch
  split
  · split
    · exact Or.inr rfl
    · dsimp only
      split
      · exact Or.inr rfl
      · split
        · exact Or.inr rfl
        · exact Or.inl rfl
  · exact Or.inl rfl

theorem bo_dispatch_no_clients (s : Server) (h : s.clients_ = []) :
    (BinaryOutput.dispatch s).1.uart_rx_buffer_ = [] ∧ (BinaryOutput.dispatch s).2 = [] := by
  unfold BinaryOutput.dispatch
  cases hb : s.uart_rx_buffer_ <;> simp [h, hb]

theorem raw_dispatch_no_clients (s : Server) (h : s.clients_ = []) :
    (RawPin.dispatch s).1.uart_rx_buffer_ = [] ∧ (RawPin.dispatch s).2 = [] := by
  unfold RawPin.dispatch
  cases hb : s.uart_rx_buffer_ <;> simp [h, hb]

theorem bo_ingest_blocked (s : Server)
    (h : s.transmitting_ = true ∨ MAX_UART_RX_BUFFER_SIZE_ ≤ s.uart_rx_buffer_.length) :
    BinaryOutput.ingest s = (s, []) := by
  unfold BinaryOutput.ingest
  rcases h with h | h
  · simp [h]
  · have : ¬ s.uart_rx_buffer_.length < MAX_UART_RX_BUFFER_SIZE_ := by omega
    simp [this]

theorem raw_ingest_blocked (r : Nat → Nat) (s : Server)
    (h : s.transmitting_ = true ∨ MAX_UART_RX_BUFFER_SIZE_ ≤ s.uart_rx_buffer_.length) :
    RawPin.ingest r s = (s, []) := by
  unfold RawPin.ingest
  rcases h with h | h
  · simp [h]
  · have : ¬ s.uart_rx_buffer_.length < MAX_UART_RX_BUFFER_SIZE_ := by omega
    simp [this]

/-! ## Claims -/

/-- C3: with an empty client registry, whatever the UART holds and whatever is staged,
one `loop()` call of either variant ends with an empty staging buffer and hands no
bytes to any client. -/
theorem C3_no_clients_discards (r : Nat → Nat) (s : Server) (h : s.clients_ = []) :
    ((BinaryOutput.loop s).1.uart_rx_buffer_ = [] ∧ (BinaryOutput.loop s).2.enqueued = []) ∧
    ((RawPin.loop r s).1.uart_rx_buffer_ = [] ∧ (RawPin.loop r s).2.enqueued = []) := by
  have hb := bo_dispatch_no_clients (BinaryOutput.ingest s).1
    (by rw [bo_ingest_clients]; exact h)
  have hr := raw_dispatch_no_clients (RawPin.ingest r s).1
    (by rw [raw_ingest_clients]; exact h)
  exact ⟨⟨hb.1, hb.2⟩, ⟨hr.1, hr.2⟩⟩

/-- C3 at a concrete state: 60 bytes pending on the UART, 5 bytes staged, no client. -/
theorem C3_no_clients_discards_witness :
    ({ idle_server [] [1, 2, 3, 4, 5] with uart_rx := List.range 60 } : Server).clients_ = [] ∧
    (((BinaryOutput.loop { idle_server [] [1, 2, 3, 4, 5] with
          uart_rx := List.range 60 }).1.uart_rx_buffer_ = [] ∧
      (BinaryOutput.loop { idle_server [] [1, 2, 3, 4, 5] with
          uart_rx := List.range 60 }).2.enqueued = []) ∧
     ((RawPin.loop read_array_count { idle_server [] [1, 2, 3, 4, 5] with
          uart_rx := List.range 60 }).1.uart_rx_buffer_ = [] ∧
      (RawPin.loop read_array_count { idle_server [] [1, 2, 3, 4, 5] with
          uart_rx := List.range 60 }).2.enqueued = [])) :=
  ⟨rfl, C3_no_clients_discards read_array_count _ rfl⟩

/-- C5: when `transmitting_` is already set, `handle_data` of either variant returns at
once: no effect on the serial side (no write, flush, assert or deassert) and the whole
state, in particular `transmitting_`, the staging buffer and the registry, is as before. -/
theorem C5_busy_drops_payload (has_binary_output : Bool) (s : Server) (tcp_data : List Nat)
    (h : s.transmitting_ = true) :
    BinaryOutput.handle_data has_binary_output s tcp_data = (s, []) ∧
    RawPin.handle_data s tcp_data = (s, []) := by
  constructor
  · simp [BinaryOutput.handle_data, h]
  · unfold RawPin.handle_data
    split
    · rfl
    · simp [h]

/-- C5 at a concrete state: a 3-byte payload arrives while a transmit is in flight. -/
theorem C5_busy_drops_payload_witness :
    ({ idle_server [ready_client 1 500] [9] with transmitting_ := true } : Server).transmitting_
        = true ∧
    (BinaryOutput.handle_data true
        { idle_server [ready_client 1 500] [9] with transmitting_ := true } [1, 2, 3]
      = ({ idle_server [ready_client 1 500] [9] with transmitting_ := true }, []) ∧
     RawPin.handle_data
        { idle_server [ready_client 1 500] [9] with transmitting_ := true } [1, 2, 3]
      = ({ idle_server [ready_client 1 500] [9] with transmitting_ := true }, [])) :=
  ⟨rfl, C5_busy_drops_payload true _ [1, 2, 3] rfl⟩

/-- C6: with a transmit-enable control configured (binary-output support compiled in) and
`transmitting_` clear, `handle_data` performs exactly: assert, the pre-transmit delay if
non-zero, write of the whole payload, flush, the post-transmit delay if non-zero, deassert;
it returns with `transmitting_` clear and the line deasserted, all other members as
before.  The raw-pin variant performs assert, write, flush, deassert. -/
theorem C6_transmit_sequence (s : Server) (tcp_data : List Nat)
    (hcfg : s.tx_enable_configured = true) (hrx : s.transmitting_ = false) :
    ((BinaryOutput.handle_data true s tcp_data).2 =
        [Effect.assert]
          ++ (if s.tx_enable_delay_us_ > 0 then [Effect.delay s.tx_enable_delay_us_] else [])
          ++ [Effect.write tcp_data, Effect.flush]
          ++ (if s.tx_disable_delay_us_ > 0 then [Effect.delay s.tx_disable_delay_us_] else [])
          ++ [Effect.deassert] ∧
      (BinaryOutput.handle_data true s tcp_data).1 = { s with tx_enable_level := false } ∧
      (BinaryOutput.handle_data true s tcp_data).1.transmitting_ = false ∧
      (BinaryOutput.handle_data true s tcp_data).1.tx_enable_level = false) ∧
    ((RawPin.handle_data s tcp_data).2 =
        [Effect.assert, Effect.write tcp_data, Effect.flush, Effect.deassert] ∧
      (RawPin.handle_data s tcp_data).1 = { s with tx_enable_level := false } ∧
      (RawPin.handle_data s tcp_data).1.transmitting_ = false ∧
      (RawPin.handle_data s tcp_data).1.tx_enable_level = false) := by
  cases s
  simp only at hcfg hrx
  subst hcfg hrx
  simp [BinaryOutput.handle_data, RawPin.handle_data]

/-- C6 at the scenario of the specification: a 50-byte payload with zero delays gives
assert, write of the 50 bytes, flush, deassert, and the bridge is back in receive mode. -/
theorem C6_transmit_sequence_witness :
    ((idle_server [] []).tx_enable_configured = true ∧ (idle_server [] []).transmitting_ = false) ∧
    (BinaryOutput.handle_data true (idle_server [] []) (List.range 50)).2 =
      [Effect.assert, Effect.write (List.range 50), Effect.flush, Effect.deassert] ∧
    (BinaryOutput.handle_data true (idle_server [] []) (List.range 50)).1.transmitting_ = false ∧
    (List.range 50).length = 50 :=
  ⟨⟨rfl, rfl⟩, (C6_transmit_sequence (idle_server [] []) (List.range 50) rfl rfl).1.1,
    (C6_transmit_sequence (idle_server [] []) (List.range 50) rfl rfl).1.2.2.1, by simp⟩

/-- C7 (as stated) fails for the raw-pin variant: with no transmit-enable pin configured
and `transmitting_` clear, a one-byte payload is not written to the serial interface;
`handle_data` performs no effect at all. -/
theorem C7_raw_pin_counterexample :
    ({ idle_server [] [] with tx_enable_configured := false } : Server).tx_enable_configured
        = false ∧
    ({ idle_server [] [] with tx_enable_configured := false } : Server).transmitting_ = false ∧
    (RawPin.handle_data { idle_server [] [] with tx_enable_configured := false } [42]).2
        ≠ [Effect.write [42], Effect.flush] ∧
    (RawPin.handle_data { idle_server [] [] with tx_enable_configured := false } [42]).2 = [] := by
  decide

/-- C7 (amended): in the binary-output variant, with no transmit-enable control configured
and `transmitting_` clear, `handle_data` writes the whole payload and flushes, with no
assert, deassert or delay, and returns with the state as before (`transmitting_` clear).
In the raw-pin variant, with no transmit-enable pin configured, `handle_data` performs no
effect on the serial side and leaves the state as before. -/
theorem C7_simple_writer_binary_output_only (has_binary_output : Bool) (s : Server)
    (tcp_data : List Nat) (hcfg : s.tx_enable_configured = false)
    (hrx : s.transmitting_ = false) :
    BinaryOutput.handle_data has_binary_output s tcp_data
        = (s, [Effect.write tcp_data, Effect.flush]) ∧
    RawPin.handle_data s tcp_data = (s, []) := by
  cases s
  simp only at hcfg hrx
  subst hcfg hrx
  simp [BinaryOutput.handle_data, RawPin.handle_data]

/-- C7 (amended) at a concrete state and payload. -/
theorem C7_simple_writer_binary_output_only_witness :
    BinaryOutput.handle_data true { idle_server [] [] with tx_enable_configured := false } [1, 2]
        = ({ idle_server [] [] with tx_enable_configured := false },
            [Effect.write [1, 2], Effect.flush]) ∧
    RawPin.handle_data { idle_server [] [] with tx_enable_configured := false } [1, 2]
        = ({ idle_server [] [] with tx_enable_configured := false }, []) :=
  C7_simple_writer_binary_output_only true
    { idle_server [] [] with tx_enable_configured := false } [1, 2] rfl rfl

/-- C9: a `loop()` call of either variant entered with `transmitting_` set, or with the
staging buffer at its capacity of 256 bytes, takes no byte from the UART (the pending
bytes are the same afterwards, the ingest block changes nothing) and appends none to the
staging buffer (after the call the buffer is what it was, or has been cleared by the
dispatch block), however many bytes the UART has pending. -/
theorem C9_ingest_blocked (r : Nat → Nat) (s : Server)
    (h : s.transmitting_ = true ∨ s.uart_rx_buffer_.length = MAX_UART_RX_BUFFER_SIZE_) :
    (BinaryOutput.ingest s = (s, []) ∧
      (BinaryOutput.loop s).1.uart_rx = s.uart_rx ∧
      (BinaryOutput.loop s).2.ingested = [] ∧
      ((BinaryOutput.loop s).1.uart_rx_buffer_ = s.uart_rx_buffer_ ∨
        (BinaryOutput.loop s).1.uart_rx_buffer_ = [])) ∧
    (RawPin.ingest r s = (s, []) ∧
      (RawPin.loop r s).1.uart_rx = s.uart_rx ∧
      (RawPin.loop r s).2.ingested = [] ∧
      ((RawPin.loop r s).1.uart_rx_buffer_ = s.uart_rx_buffer_ ∨
        (RawPin.loop r s).1.uart_rx_buffer_ = [])) := by
  have h2 : s.transmitting_ = true ∨ MAX_UART_RX_BUFFER_SIZE_ ≤ s.uart_rx_buffer_.length :=
    h.imp id (fun e => by omega)
  have hb := bo_ingest_blocked s h2
  have hr := raw_ingest_blocked r s h2
  refine ⟨⟨hb, ?_, ?_, ?_⟩, ⟨hr, ?_, ?_, ?_⟩⟩
  · simp only [BinaryOutput.loop, hb, cleanup_uart_rx]
    rcases bo_dispatch_cases s with e | e <;> rw [e]
  · simp only [BinaryOutput.loop, hb]
  · simp only [BinaryOutput.loop, hb, cleanup_buffer]
    rcases bo_dispatch_cases s with e | e <;> rw [e]
    · exact Or.inl rfl
    · exact Or.inr rfl
  · simp only [RawPin.loop, hr, cleanup_uart_rx]
    rcases raw_dispatch_cases s with e | e <;> rw [e]
  · simp only [RawPin.loop, hr]
  · simp only [RawPin.loop, hr, cleanup_buffer]
    rcases raw_dispatch_cases s with e | e <;> rw [e]
    · exact Or.inl rfl
    · exact Or.inr rfl

/-- C9 at a concrete state: a transmit is in flight and 100 bytes are pending on the UART;
all 100 are still pending after the call. -/
theorem C9_ingest_blocked_witness :
    ({ idle_server [ready_client 1 0] [7] with
        transmitting_ := true, uart_rx := List.range 100 } : Server).transmitting_ = true ∧
    (BinaryOutput.loop { idle_server [ready_client 1 0] [7] with
        transmitting_ := true, uart_rx := List.range 100 }).1.uart_rx = List.range 100 ∧
    (RawPin.loop read_array_count { idle_server [ready_client 1 0] [7] with
        transmitting_ := true, uart_rx := List.range 100 }).1.uart_rx = List.range 100 :=
  ⟨rfl,
    (C9_ingest_blocked read_array_count { idle_server [ready_client 1 0] [7] with
        transmitting_ := true, uart_rx := List.range 100 } (Or.inl rfl)).1.2.1,
    (C9_ingest_blocked read_array_count { idle_server [ready_client 1 0] [7] with
        transmitting_ := true, uart_rx := List.range 100 } (Or.inl rfl)).2.2.1⟩

/-- C10: `cleanup_disconnected_clients` leaves exactly the registered handles that report
connected, in their original order (the registry filtered by `connected()`): a handle is
registered afterwards if and only if it was registered before and is connected, the new
registry is a sub-list of the old one, no other member changes, and a second application
changes nothing. -/
theorem C10_cleanup_is_filter (s : Server) :
    (cleanup_disconnected_clients s).clients_ = s.clients_.filter (fun c => c.connected) ∧
    (∀ c, c ∈ (cleanup_disconnected_clients s).clients_ ↔
      c ∈ s.clients_ ∧ c.connected = true) ∧
    List.Sublist (cleanup_disconnected_clients s).clients_ s.clients_ ∧
    cleanup_disconnected_clients s
      = { s with clients_ := (cleanup_disconnected_clients s).clients_ } ∧
    cleanup_disconnected_clients (cleanup_disconnected_clients s)
      = cleanup_disconnected_clients s := by
  have e := cleanup_eq_filter s
  refine ⟨by rw [e], ?_, ?_, ?_, ?_⟩
  · intro c
    rw [e]
    simp [List.mem_filter]
  · rw [e]
    exact List.filter_sublist _
  · rw [e]
  · rw [cleanup_eq_filter (cleanup_disconnected_clients s), e]
    simp [List.filter_filter]

/-! ## The ingest block: what it takes from the UART and appends to the buffer -/

theorem bo_read_loop_eq (rx buf : List Nat) (total : Nat) :
    BinaryOutput.read_loop rx buf total =
      (rx.drop (min rx.length (min (MAX_BYTES_PER_LOOP - total)
          (MAX_UART_RX_BUFFER_SIZE_ - buf.length))),
       buf ++ rx.take (min rx.length (min (MAX_BYTES_PER_LOOP - total)
          (MAX_UART_RX_BUFFER_SIZE_ - buf.length))),
       total + min rx.length (min (MAX_BYTES_PER_LOOP - total)
          (MAX_UART_RX_BUFFER_SIZE_ - buf.length))) := by
  induction rx generalizing buf total with
  | nil => simp [BinaryOutput.read_loop]
  | cons b rx ih =>
    unfold BinaryOutput.read_loop
    by_cases hc : buf.length < MAX_UART_RX_BUFFER_SIZE_ ∧ total < MAX_BYTES_PER_LOOP
    · rw [if_pos hc, ih]
      have hk : min (b :: rx).length (min (MAX_BYTES_PER_LOOP - total)
            (MAX_UART_RX_BUFFER_SIZE_ - buf.length))
          = min rx.length (min (MAX_BYTES_PER_LOOP - (total + 1))
            (MAX_UART_RX_BUFFER_SIZE_ - (buf ++ [b]).length)) + 1 := by
        simp only [List.length_cons, List.length_append, List.length_nil]
        omega
      rw [hk]
      simp [Nat.add_assoc, Nat.add_comm 1]
    · rw [if_neg hc]
      have hk : min (b :: rx).length (min (MAX_BYTES_PER_LOOP - total)
            (MAX_UART_RX_BUFFER_SIZE_ - buf.length)) = 0 := by
        simp only [List.length_cons]
        omega
      rw [hk]
      simp

theorem bo_ingest_buffer (s : Server) :
    ∃ added, (BinaryOutput.ingest s).1.uart_rx_buffer_ = s.uart_rx_buffer_ ++ added ∧
      (s.uart_rx_buffer_.length ≤ MAX_UART_RX_BUFFER_SIZE_ →
        (s.uart_rx_buffer_ ++ added).length ≤ MAX_UART_RX_BUFFER_SIZE_) := by
  unfold BinaryOutput.ingest
  split
  · split
    · refine ⟨_, by simp only [bo_read_loop_eq]; rfl, ?_⟩
      intro h
      simp only [List.length_append, List.length_take]
      omega
    · exact ⟨[], by simp, by simp⟩
  · exact ⟨[], by simp, by simp⟩

theorem raw_ingest_buffer (r : Nat → Nat) (hr : ∀ m, r m ≤ m) (s : Server) :
    ∃ added, (RawPin.ingest r s).1.uart_rx_buffer_ = s.uart_rx_buffer_ ++ added ∧
      (s.uart_rx_buffer_.length ≤ MAX_UART_RX_BUFFER_SIZE_ →
        (s.uart_rx_buffer_ ++ added).length ≤ MAX_UART_RX_BUFFER_SIZE_) := by
  unfold RawPin.ingest
  split
  · dsimp only
    split
    · split
      · split
        · refine ⟨_, rfl, ?_⟩
          intro h
          have := hr (min (min s.uart_rx.length UART_READ_CHUNK_SIZE)
            (MAX_UART_RX_BUFFER_SIZE_ - s.uart_rx_buffer_.length))
          simp only [List.length_append, List.length_take]
          omega
        · exact ⟨[], by simp, by simp⟩
      · exact ⟨[], by simp, by simp⟩
    · exact ⟨[], by simp, by simp⟩
  · exact ⟨[], by simp, by simp⟩

/-! ## The dispatch loop and its flag -/

theorem bo_dispatch_loop_false (buf : List Nat) (cs : List AsyncClient) :
    (BinaryOutput.dispatch_loop buf cs false).2 = false := by
  induction cs with
  | nil => rfl
  | cons c cs ih =>
    unfold BinaryOutput.dispatch_loop
    split
    · split
      · exact ih
      · rfl
    · split <;> exact ih

theorem bo_dispatch_loop_true (buf : List Nat) (cs : List AsyncClient) (flag : Bool)
    (h : (BinaryOutput.dispatch_loop buf cs flag).2 = true) :
    (BinaryOutput.dispatch_loop buf cs flag).1
        = (cs.filter fun c => c.connected).map (fun c => (c.id, buf)) ∧
      ∀ c ∈ cs, c.connected = true → c.canSend = true ∧ buf.length ≤ c.space := by
  induction cs generalizing flag with
  | nil => simp [BinaryOutput.dispatch_loop]
  | cons c cs ih =>
    unfold BinaryOutput.dispatch_loop at h ⊢
    by_cases h1 : (c.connected && c.canSend) = true
    · rw [if_pos h1] at h ⊢
      by_cases h2 : c.space ≥ buf.length
      · rw [if_pos h2] at h ⊢
        have hc : c.connected = true ∧ c.canSend = true := by simpa using h1
        obtain ⟨e, hall⟩ := ih flag h
        refine ⟨by simp [e, hc.1], ?_⟩
        intro d hd hdc
        rcases List.mem_cons.mp hd with rfl | hd
        · exact ⟨hc.2, h2⟩
        · exact hall d hd hdc
      · rw [if_neg h2] at h
        simp at h
    · rw [if_neg h1] at h ⊢
      by_cases h3 : (c.connected && !c.canSend) = true
      · rw [if_pos h3] at h
        rw [bo_dispatch_loop_false] at h
        simp at h
      · rw [if_neg h3] at h ⊢
        have hc : c.connected = false := by
          cases hcc : c.connected <;> cases hcs : c.canSend <;> simp_all
        obtain ⟨e, hall⟩ := ih flag h
        refine ⟨by simp [e, hc], ?_⟩
        intro d hd hdc
        rcases List.mem_cons.mp hd with rfl | hd
        · simp [hc] at hdc
        · exact hall d hd hdc

theorem raw_dispatch_loop_true (buf : List Nat) (cs : List AsyncClient) (flag : Bool)
    (h : (RawPin.dispatch_loop buf cs flag).2 = true) :
    (RawPin.dispatch_loop buf cs flag).1
        = (cs.filter fun c => c.connected).map (fun c => (c.id, buf)) ∧
      ∀ c ∈ cs, c.connected = true → c.canSend = true ∧ buf.length ≤ c.space := by
  induction cs generalizing flag with
  | nil => simp [RawPin.dispatch_loop]
  | cons c cs ih =>
    unfold RawPin.dispatch_loop at h ⊢
    by_cases h1 : (c.connected && c.canSend) = true
    · rw [if_pos h1] at h ⊢
      by_cases h2 : c.space ≥ buf.length
      · rw [if_pos h2] at h ⊢
        have hc : c.connected = true ∧ c.canSend = true := by simpa using h1
        obtain ⟨e, hall⟩ := ih flag h
        refine ⟨by simp [e, hc.1], ?_⟩
        intro d hd hdc
        rcases List.mem_cons.mp hd with rfl | hd
        · exact ⟨hc.2, h2⟩
        · exact hall d hd hdc
      · rw [if_neg h2] at h
        simp at h
    · rw [if_neg h1] at h ⊢
      by_cases h3 : (c.connected && !c.canSend) = true
      · rw [if_pos h3] at h
        simp at h
      · rw [if_neg h3] at h ⊢
        have hc : c.connected = false := by
          cases hcc : c.connected <;> cases hcs : c.canSend <;> simp_all
        obtain ⟨e, hall⟩ := ih flag h
        refine ⟨by simp [e, hc], ?_⟩
        intro d hd hdc
        rcases List.mem_cons.mp hd with rfl | hd
        · simp [hc] at hdc
        · exact hall d hd hdc

theorem bo_dispatch_eq (s : Server) (hne : s.uart_rx_buffer_ ≠ [])
    (hcl : s.clients_ ≠ []) :
    BinaryOutput.dispatch s =
      if (BinaryOutput.dispatch_loop s.uart_rx_buffer_ s.clients_ true).2 = true then
        ({ s with uart_rx_buffer_ := [] },
          (BinaryOutput.dispatch_loop s.uart_rx_buffer_ s.clients_ true).1)
      else (s, (BinaryOutput.dispatch_loop s.uart_rx_buffer_ s.clients_ true).1) := by
  unfold BinaryOutput.dispatch
  simp [hne, hcl]

theorem raw_dispatch_eq (s : Server) (hne : s.uart_rx_buffer_ ≠ [])
    (hlen : s.uart_rx_buffer_.length ≤ MAX_UART_RX_BUFFER_SIZE_ * 2) (hcl : s.clients_ ≠ []) :
    RawPin.dispatch s =
      if (RawPin.dispatch_loop s.uart_rx_buffer_ s.clients_ true).2 = true then
        ({ s with uart_rx_buffer_ := [] },
          (RawPin.dispatch_loop s.uart_rx_buffer_ s.clients_ true).1)
      else (s, (RawPin.dispatch_loop s.uart_rx_buffer_ s.clients_ true).1) := by
  unfold RawPin.dispatch
  have hc : ¬ s.uart_rx_buffer_.length > MAX_UART_RX_BUFFER_SIZE_ * 2 := by omega
  simp [hne, hcl, hc]

/-- The shape shared by the two variants: a pass whose result is decided by a flag that,
when set, certifies that every connected client was served. -/
theorem dispatch_contract (a : Server) (res : Server × List (Nat × List Nat))
    (log : List (Nat × List Nat)) (flag : Bool) (hne : a.uart_rx_buffer_ ≠ [])
    (hres : res = if flag = true then ({ a with uart_rx_buffer_ := [] }, log) else (a, log))
    (htrue : flag = true →
      log = (a.clients_.filter fun c => c.connected).map (fun c => (c.id, a.uart_rx_buffer_)) ∧
      ∀ c ∈ a.clients_, c.connected = true →
        c.canSend = true ∧ a.uart_rx_buffer_.length ≤ c.space) :
    (res.1.uart_rx_buffer_ = [] →
      res.2 = (a.clients_.filter fun c => c.connected).map
          (fun c => (c.id, a.uart_rx_buffer_)) ∧
      ∀ c ∈ a.clients_, c.connected = true → (c.id, a.uart_rx_buffer_) ∈ res.2) ∧
    ((∃ c ∈ a.clients_, c.connected = true ∧
        (c.canSend = false ∨ c.space < a.uart_rx_buffer_.length)) → res.1 = a) ∧
    ((∃ c ∈ a.clients_, c.connected = true ∧ (c.id, a.uart_rx_buffer_) ∉ res.2) →
      res.1 = a) := by
  cases flag with
  | false =>
    simp only [Bool.false_eq_true, if_false] at hres
    subst hres
    exact ⟨fun h => absurd h hne, fun _ => rfl, fun _ => rfl⟩
  | true =>
    simp only [if_true] at hres
    subst hres
    obtain ⟨e, hall⟩ := htrue rfl
    have hmem : ∀ c ∈ a.clients_, c.connected = true → (c.id, a.uart_rx_buffer_) ∈ log := by
      intro c hc hcc
      rw [e]
      exact List.mem_map.mpr ⟨c, List.mem_filter.mpr ⟨hc, hcc⟩, rfl⟩
    refine ⟨fun _ => ⟨e, hmem⟩, ?_, ?_⟩
    · rintro ⟨c, hc, hcc, hbad⟩
      obtain ⟨h1, h2⟩ := hall c hc hcc
      rcases hbad with hbad | hbad
      · rw [h1] at hbad; cases hbad
      · omega
    · rintro ⟨c, hc, hcc, hnot⟩
      exact absurd (hmem c hc hcc) hnot

/-- C2: in both variants, a `loop()` call entered with a non-empty staging buffer of at
most 256 bytes and a non-empty registry leaves the buffer empty only if every connected
registered client had the whole buffer (as it stood when the dispatch block began) handed
to it in this call, each once and in registration order; and if some connected client
cannot send or has less `space()` than the buffer length, or was not handed the buffer,
then the state after the dispatch block, and so the staging buffer, is the one before. -/
theorem C2_clear_only_if_all_received (r : Nat → Nat) (hr : ∀ m, r m ≤ m) (s : Server)
    (hne : s.uart_rx_buffer_ ≠ [])
    (hlen : s.uart_rx_buffer_.length ≤ MAX_UART_RX_BUFFER_SIZE_)
    (hcl : s.clients_ ≠ []) :
    (((BinaryOutput.loop s).1.uart_rx_buffer_ = [] →
        (BinaryOutput.loop s).2.enqueued = (s.clients_.filter fun c => c.connected).map
            (fun c => (c.id, (BinaryOutput.ingest s).1.uart_rx_buffer_)) ∧
        ∀ c ∈ s.clients_, c.connected = true →
          (c.id, (BinaryOutput.ingest s).1.uart_rx_buffer_) ∈ (BinaryOutput.loop s).2.enqueued) ∧
      ((∃ c ∈ s.clients_, c.connected = true ∧ (c.canSend = false ∨
          c.space < (BinaryOutput.ingest s).1.uart_rx_buffer_.length)) →
        (BinaryOutput.dispatch (BinaryOutput.ingest s).1).1 = (BinaryOutput.ingest s).1 ∧
        (BinaryOutput.loop s).1.uart_rx_buffer_ = (BinaryOutput.ingest s).1.uart_rx_buffer_) ∧
      ((∃ c ∈ s.clients_, c.connected = true ∧
          (c.id, (BinaryOutput.ingest s).1.uart_rx_buffer_) ∉ (BinaryOutput.loop s).2.enqueued) →
        (BinaryOutput.loop s).1.uart_rx_buffer_ = (BinaryOutput.ingest s).1.uart_rx_buffer_)) ∧
    (((RawPin.loop r s).1.uart_rx_buffer_ = [] →
        (RawPin.loop r s).2.enqueued = (s.clients_.filter fun c => c.connected).map
            (fun c => (c.id, (RawPin.ingest r s).1.uart_rx_buffer_)) ∧
        ∀ c ∈ s.clients_, c.connected = true →
          (c.id, (RawPin.ingest r s).1.uart_rx_buffer_) ∈ (RawPin.loop r s).2.enqueued) ∧
      ((∃ c ∈ s.clients_, c.connected = true ∧ (c.canSend = false ∨
          c.space < (RawPin.ingest r s).1.uart_rx_buffer_.length)) →
        (RawPin.dispatch (RawPin.ingest r s).1).1 = (RawPin.ingest r s).1 ∧
        (RawPin.loop r s).1.uart_rx_buffer_ = (RawPin.ingest r s).1.uart_rx_buffer_) ∧
      ((∃ c ∈ s.clients_, c.connected = true ∧
          (c.id, (RawPin.ingest r s).1.uart_rx_buffer_) ∉ (RawPin.loop r s).2.enqueued) →
        (RawPin.loop r s).1.uart_rx_buffer_ = (RawPin.ingest r s).1.uart_rx_buffer_)) := by
  constructor
  · obtain ⟨added, hbuf, hbound⟩ := bo_ingest_buffer s
    have hcl2 := bo_ingest_clients s
    have hne2 : (BinaryOutput.ingest s).1.uart_rx_buffer_ ≠ [] := by
      rw [hbuf]; simp [hne]
    have hc := dispatch_contract (BinaryOutput.ingest s).1
      (BinaryOutput.dispatch (BinaryOutput.ingest s).1) _ _ hne2
      (bo_dispatch_eq _ hne2 (by rw [hcl2]; exact hcl))
      (bo_dispatch_loop_true _ _ true)
    rw [hcl2] at hc
    refine ⟨hc.1, fun h => ?_, fun h => ?_⟩
    · have e := hc.2.1 h
      exact ⟨e, by simp only [BinaryOutput.loop, cleanup_buffer, e]⟩
    · have e := hc.2.2 h
      simp only [BinaryOutput.loop, cleanup_buffer, e]
  · obtain ⟨added, hbuf, hbound⟩ := raw_ingest_buffer r hr s
    have hcl2 := raw_ingest_clients r s
    have hne2 : (RawPin.ingest r s).1.uart_rx_buffer_ ≠ [] := by
      rw [hbuf]; simp [hne]
    have hlen2 : (RawPin.ingest r s).1.uart_rx_buffer_.length
        ≤ MAX_UART_RX_BUFFER_SIZE_ * 2 := by
      rw [hbuf]; have := hbound hlen; omega
    have hc := dispatch_contract (RawPin.ingest r s).1
      (RawPin.dispatch (RawPin.ingest r s).1) _ _ hne2
      (raw_dispatch_eq _ hne2 hlen2 (by rw [hcl2]; exact hcl))
      (raw_dispatch_loop_true _ _ true)
    rw [hcl2] at hc
    refine ⟨hc.1, fun h => ?_, fun h => ?_⟩
    · have e := hc.2.1 h
      exact ⟨e, by simp only [RawPin.loop, cleanup_buffer, e]⟩
    · have e := hc.2.2 h
      simp only [RawPin.loop, cleanup_buffer, e]

/-- C2 at a concrete state: `A` has room and `B` has none, three bytes are staged; the
buffer is retained by both variants. -/
theorem C2_clear_only_if_all_received_witness :
    (∀ m, read_array_count m ≤ m) ∧
    (stalled_pair [1, 2, 3]).uart_rx_buffer_ ≠ [] ∧
    (stalled_pair [1, 2, 3]).uart_rx_buffer_.length ≤ MAX_UART_RX_BUFFER_SIZE_ ∧
    (stalled_pair [1, 2, 3]).clients_ ≠ [] ∧
    (BinaryOutput.loop (stalled_pair [1, 2, 3])).1.uart_rx_buffer_ = [1, 2, 3] ∧
    (RawPin.loop read_array_count (stalled_pair [1, 2, 3])).1.uart_rx_buffer_ = [1, 2, 3] :=
  ⟨fun _ => Nat.le_refl _, by decide, by decide, by decide,
    ((C2_clear_only_if_all_received read_array_count (fun _ => Nat.le_refl _)
      (stalled_pair [1, 2, 3]) (by decide) (by decide) (by decide)).1.2.1
        ⟨ready_client 2 0, by decide, rfl, Or.inr (by decide)⟩).2,
    ((C2_clear_only_if_all_received read_array_count (fun _ => Nat.le_refl _)
      (stalled_pair [1, 2, 3]) (by decide) (by decide) (by decide)).2.2.1
        ⟨ready_client 2 0, by decide, rfl, Or.inr (by decide)⟩).2⟩

theorem bo_dispatch_loop_stalled (buf : List Nat) (before after : List AsyncClient)
    (B : AsyncClient) (flag : Bool)
    (hbefore : ∀ c ∈ before, c.connected = true ∧ c.canSend = true ∧ buf.length ≤ c.space)
    (hB : B.connected = true ∧ B.canSend = true ∧ B.space < buf.length) :
    BinaryOutput.dispatch_loop buf (before ++ B :: after) flag
      = (before.map (fun c => (c.id, buf)), false) := by
  induction before with
  | nil =>
    have : ¬ B.space ≥ buf.length := by omega
    simp [BinaryOutput.dispatch_loop, hB.1, hB.2.1, this]
  | cons c cs ih =>
    obtain ⟨h1, h2, h3⟩ := hbefore c (List.mem_cons_self _ _)
    have ih2 := ih (fun d hd => hbefore d (List.mem_cons_of_mem _ hd))
    rw [List.cons_append, BinaryOutput.dispatch_loop, ih2]
    simp [h1, h2, h3]

theorem raw_dispatch_loop_stalled (buf : List Nat) (before after : List AsyncClient)
    (B : AsyncClient) (flag : Bool)
    (hbefore : ∀ c ∈ before, c.connected = true ∧ c.canSend = true ∧ buf.length ≤ c.space)
    (hB : B.connected = true ∧ B.canSend = true ∧ B.space < buf.length) :
    RawPin.dispatch_loop buf (before ++ B :: after) flag
      = (before.map (fun c => (c.id, buf)), false) := by
  induction before with
  | nil =>
    have : ¬ B.space ≥ buf.length := by omega
    simp [RawPin.dispatch_loop, hB.1, hB.2.1, this]
  | cons c cs ih =>
    obtain ⟨h1, h2, h3⟩ := hbefore c (List.mem_cons_self _ _)
    have ih2 := ih (fun d hd => hbefore d (List.mem_cons_of_mem _ hd))
    rw [List.cons_append, RawPin.dispatch_loop, ih2]
    simp [h1, h2, h3]

/-- C4: in both variants, let `s` be the state when the dispatch block of a `loop()` call
begins, with a non-empty staging buffer of `n ≤ 256` bytes and a registry
`before ++ B :: after` in which every client of `before` is connected, send-ready and has
`space() ≥ n`, and `B` is connected, send-ready and has `space() < n`.  Then the `add()`
calls of the pass are exactly one per client of `before`, in registration order, each with
the `n` buffered bytes; nothing is handed to `B` or to a client of `after`; and the state,
in particular the staging buffer, is unchanged by the pass. -/
theorem C4_stalled_client_stops_pass (s : Server) (before after : List AsyncClient)
    (B : AsyncClient) (hreg : s.clients_ = before ++ B :: after)
    (hne : s.uart_rx_buffer_ ≠ [])
    (hlen : s.uart_rx_buffer_.length ≤ MAX_UART_RX_BUFFER_SIZE_)
    (hbefore : ∀ c ∈ before,
      c.connected = true ∧ c.canSend = true ∧ s.uart_rx_buffer_.length ≤ c.space)
    (hB : B.connected = true ∧ B.canSend = true ∧ B.space < s.uart_rx_buffer_.length) :
    BinaryOutput.dispatch s = (s, before.map (fun c => (c.id, s.uart_rx_buffer_))) ∧
    RawPin.dispatch s = (s, before.map (fun c => (c.id, s.uart_rx_buffer_))) := by
  have hcl : s.clients_ ≠ [] := by rw [hreg]; simp
  constructor
  · rw [bo_dispatch_eq s hne hcl, hreg,
      bo_dispatch_loop_stalled _ before after B true hbefore hB]
    simp
  · rw [raw_dispatch_eq s hne (by omega) hcl, hreg,
      raw_dispatch_loop_stalled _ before after B true hbefore hB]
    simp

/-- C4 at the scenario of the specification: `A` with headroom 500, `B` with headroom 0
and a 200-byte buffer; the 200 bytes go to `A` only and stay staged, also over the whole
`loop()` call. -/
theorem C4_stalled_client_stops_pass_witness :
    (List.range 200).length = 200 ∧
    BinaryOutput.dispatch (stalled_pair (List.range 200))
      = (stalled_pair (List.range 200), [(1, List.range 200)]) ∧
    RawPin.dispatch (stalled_pair (List.range 200))
      = (stalled_pair (List.range 200), [(1, List.range 200)]) ∧
    (BinaryOutput.loop (stalled_pair (List.range 200))).1.uart_rx_buffer_ = List.range 200 ∧
    (BinaryOutput.loop (stalled_pair (List.range 200))).2.enqueued = [(1, List.range 200)] := by
  have h := C4_stalled_client_stops_pass (stalled_pair (List.range 200))
    [ready_client 1 500] [] (ready_client 2 0) rfl
    (by simp [stalled_pair, idle_server])
    (by simp [stalled_pair, idle_server, MAX_UART_RX_BUFFER_SIZE_])
    (by simp [stalled_pair, idle_server, ready_client])
    (by simp [stalled_pair, idle_server, ready_client])
  have hi : BinaryOutput.ingest (stalled_pair (List.range 200))
      = (stalled_pair (List.range 200), []) := by
    simp [BinaryOutput.ingest, stalled_pair, idle_server]
  refine ⟨by simp, h.1, h.2, ?_, ?_⟩
  · simp only [BinaryOutput.loop, hi, h.1, cleanup_buffer]
    rfl
  · simp only [BinaryOutput.loop, hi, h.1]
    rfl

/-! ## The staging buffer stays within its capacity along every run -/

theorem bo_loop_buffer_le (s : Server)
    (h : s.uart_rx_buffer_.length ≤ MAX_UART_RX_BUFFER_SIZE_) :
    (BinaryOutput.loop s).1.uart_rx_buffer_.length ≤ MAX_UART_RX_BUFFER_SIZE_ := by
  obtain ⟨added, hbuf, hbound⟩ := bo_ingest_buffer s
  have ha : (BinaryOutput.ingest s).1.uart_rx_buffer_.length ≤ MAX_UART_RX_BUFFER_SIZE_ := by
    rw [hbuf]; exact hbound h
  simp only [BinaryOutput.loop, cleanup_buffer]
  rcases bo_dispatch_cases (BinaryOutput.ingest s).1 with e | e <;> rw [e]
  · exact ha
  · exact Nat.zero_le _

theorem raw_loop_buffer_le (r : Nat → Nat) (hr : ∀ m, r m ≤ m) (s : Server)
    (h : s.uart_rx_buffer_.length ≤ MAX_UART_RX_BUFFER_SIZE_) :
    (RawPin.loop r s).1.uart_rx_buffer_.length ≤ MAX_UART_RX_BUFFER_SIZE_ := by
  obtain ⟨added, hbuf, hbound⟩ := raw_ingest_buffer r hr s
  have ha : (RawPin.ingest r s).1.uart_rx_buffer_.length ≤ MAX_UART_RX_BUFFER_SIZE_ := by
    rw [hbuf]; exact hbound h
  simp only [RawPin.loop, cleanup_buffer]
  rcases raw_dispatch_cases (RawPin.ingest r s).1 with e | e <;> rw [e]
  · exact ha
  · exact Nat.zero_le _

theorem bo_handle_data_buffer (has_binary_output : Bool) (s : Server)
    (tcp_data : List Nat) :
    (BinaryOutput.handle_data has_binary_output s tcp_data).1.uart_rx_buffer_
      = s.uart_rx_buffer_ := by
  unfold BinaryOutput.handle_data
  split
  · rfl
  · dsimp only
    split <;> rfl

theorem raw_handle_data_buffer (s : Server) (tcp_data : List Nat) :
    (RawPin.handle_data s tcp_data).1.uart_rx_buffer_ = s.uart_rx_buffer_ := by
  unfold RawPin.handle_data
  split
  · rfl
  · split <;> rfl

theorem handle_new_client_buffer (s : Server) (client : Option AsyncClient) :
    (handle_new_client s client).uart_rx_buffer_ = s.uart_rx_buffer_ := by
  cases client <;> rfl

theorem run_buffer_le (loopF : Server → Server × Tick)
    (dataF : Server → List Nat → Server × List Effect)
    (hloop : ∀ s, s.uart_rx_buffer_.length ≤ MAX_UART_RX_BUFFER_SIZE_ →
      (loopF s).1.uart_rx_buffer_.length ≤ MAX_UART_RX_BUFFER_SIZE_)
    (hdata : ∀ s p, (dataF s p).1.uart_rx_buffer_ = s.uart_rx_buffer_)
    (es : List Event) (s : Server)
    (h : s.uart_rx_buffer_.length ≤ MAX_UART_RX_BUFFER_SIZE_) :
    (run loopF dataF s es).1.uart_rx_buffer_.length ≤ MAX_UART_RX_BUFFER_SIZE_ := by
  induction es generalizing s with
  | nil => exact h
  | cons e es ih =>
    simp only [run]
    apply ih
    cases e with
    | tick => exact hloop s h
    | serial bytes => exact h
    | accept client => simp only [step, handle_new_client_buffer]; exact h
    | client_change id connected canSend space => exact h
    | data tcp_data => simp only [step, hdata]; exact h
    | disconnect client => exact h
    | error client code => exact h
    | timeout client time => exact h

/-- C8: in both variants, from any state with an empty staging buffer, after any sequence
of `loop()` calls, serial arrivals, accepts, client connectivity or headroom changes,
`handle_data` calls and other client callbacks, the staging buffer holds at most 256 bytes, hence at most twice 256;
no assumption is made on the clients, so this covers a client whose headroom is zero on
every tick.  For the raw-pin variant `read_array` is assumed to hand back no more than
the number of bytes asked for. -/
theorem C8_staging_buffer_within_capacity (has_binary_output : Bool) (r : Nat → Nat)
    (hr : ∀ m, r m ≤ m) (s : Server) (h : s.uart_rx_buffer_ = []) (es : List Event) :
    ((BinaryOutput.run has_binary_output s es).1.uart_rx_buffer_.length
        ≤ MAX_UART_RX_BUFFER_SIZE_ ∧
      (BinaryOutput.run has_binary_output s es).1.uart_rx_buffer_.length
        ≤ 2 * MAX_UART_RX_BUFFER_SIZE_) ∧
    ((RawPin.run r s es).1.uart_rx_buffer_.length ≤ MAX_UART_RX_BUFFER_SIZE_ ∧
      (RawPin.run r s es).1.uart_rx_buffer_.length ≤ 2 * MAX_UART_RX_BUFFER_SIZE_) := by
  have h0 : s.uart_rx_buffer_.length ≤ MAX_UART_RX_BUFFER_SIZE_ := by simp [h]
  have hb := run_buffer_le BinaryOutput.loop (BinaryOutput.handle_data has_binary_output)
    bo_loop_buffer_le (bo_handle_data_buffer has_binary_output) es s h0
  have hp := run_buffer_le (RawPin.loop r) RawPin.handle_data
    (raw_loop_buffer_le r hr) raw_handle_data_buffer es s h0
  exact ⟨⟨hb, by unfold BinaryOutput.run; omega⟩, ⟨hp, by unfold RawPin.run; omega⟩⟩

/-- C8 at a concrete run: 300 bytes arrive while the only client has no headroom; after
five ticks 256 bytes are staged in either variant and the rest is still on the UART. -/
theorem C8_staging_buffer_within_capacity_witness :
    (∀ m, read_array_count m ≤ m) ∧ (idle_server [ready_client 1 0] []).uart_rx_buffer_ = [] ∧
    (BinaryOutput.run true (idle_server [ready_client 1 0] [])
      [.serial (List.range 300), .tick, .tick, .tick, .tick, .tick]).1.uart_rx_buffer_.length
        ≤ MAX_UART_RX_BUFFER_SIZE_ ∧
    (RawPin.run read_array_count (idle_server [ready_client 1 0] [])
      [.serial (List.range 300), .tick, .tick, .tick, .tick, .tick]).1.uart_rx_buffer_.length
        ≤ MAX_UART_RX_BUFFER_SIZE_ :=
  ⟨fun _ => Nat.le_refl _, rfl,
    (C8_staging_buffer_within_capacity true read_array_count (fun _ => Nat.le_refl _)
      (idle_server [ready_client 1 0] []) rfl
      [.serial (List.range 300), .tick, .tick, .tick, .tick, .tick]).1.1,
    (C8_staging_buffer_within_capacity true read_array_count (fun _ => Nat.le_refl _)
      (idle_server [ready_client 1 0] []) rfl
      [.serial (List.range 300), .tick, .tick, .tick, .tick, .tick]).2.1⟩

/-- C1, evaluated on a run the code can receive (`stalled_pair` then `retry_events`):
client `A` (pointer 1) is handed `[1, 2]` in the first tick and, because `B` stalled and
the buffer was retained, `[1, 2, 3]` in the second.  Its stream `[1, 2, 1, 2, 3]` is not
a subsequence of the bytes `[1, 2, 3]` taken from the UART, in either variant. -/
theorem C1_retry_delivers_twice :
    (stalled_pair []).uart_rx_buffer_ = [] ∧
    ((BinaryOutput.run true (stalled_pair []) retry_events).2.ingested = [1, 2, 3] ∧
      delivered 1 (BinaryOutput.run true (stalled_pair []) retry_events).2.enqueued
        = [1, 2, 1, 2, 3] ∧
      ¬ List.Sublist
        (delivered 1 (BinaryOutput.run true (stalled_pair []) retry_events).2.enqueued)
        (BinaryOutput.run true (stalled_pair []) retry_events).2.ingested) ∧
    ((RawPin.run read_array_count (stalled_pair []) retry_events).2.ingested = [1, 2, 3] ∧
      delivered 1 (RawPin.run read_array_count (stalled_pair []) retry_events).2.enqueued
        = [1, 2, 1, 2, 3] ∧
      ¬ List.Sublist
        (delivered 1 (RawPin.run read_array_count (stalled_pair []) retry_events).2.enqueued)
        (RawPin.run read_array_count (stalled_pair []) retry_events).2.ingested) := by
  decide

/-! ## Both `read_array` conventions hand back no more than was asked for -/

theorem read_array_count_le (m : Nat) : read_array_count m ≤ m := Nat.le_refl m

theorem read_array_flag_le (m : Nat) : read_array_flag m ≤ m := by
  unfold read_array_flag
  split <;> omega

/-! ## Client fault handlers -/

/-- C11 (as stated) fails for `handle_error`: for a registered client reporting an error,
the handler makes no call on the client, so it does not close the connection. -/
theorem C11_handle_error_does_not_close :
    ready_client 1 500 ∈ (idle_server [ready_client 1 500] []).clients_ ∧
    (handle_error (idle_server [ready_client 1 500] []) (ready_client 1 500) (-13)).2 = [] ∧
    ClientCall.close 1 true ∉
      (handle_error (idle_server [ready_client 1 500] []) (ready_client 1 500) (-13)).2 ∧
    ClientCall.close 1 false ∉
      (handle_error (idle_server [ready_client 1 500] []) (ready_client 1 500) (-13)).2 := by
  decide

/-- C11 (amended): for every client, `handle_timeout` makes exactly one call on that
client, `close(true)`, and `handle_error` makes no call on the client at all (it only
logs); after either handler the bridge state, in particular the registry, the staging
buffer and `transmitting_`, is the one before. -/
theorem C11_timeout_closes_error_only_logs (s : Server) (client : AsyncClient)
    (code : Int) (time : Nat) :
    (handle_timeout s client time).2 = [ClientCall.close client.id true] ∧
    (handle_timeout s client time).1 = s ∧
    (handle_error s client code).2 = [] ∧
    (handle_error s client code).1 = s ∧
    (handle_timeout s client time).1.clients_ = s.clients_ ∧
    (handle_timeout s client time).1.uart_rx_buffer_ = s.uart_rx_buffer_ ∧
    (handle_timeout s client time).1.transmitting_ = s.transmitting_ ∧
    (handle_error s client code).1.clients_ = s.clients_ ∧
    (handle_error s client code).1.uart_rx_buffer_ = s.uart_rx_buffer_ ∧
    (handle_error s client code).1.transmitting_ = s.transmitting_ :=
  ⟨rfl, rfl, rfl, rfl, rfl, rfl, rfl, rfl, rfl, rfl⟩

/-! ## The ingest block of the binary-output variant, byte for byte -/

theorem bo_ingest_eq (s : Server) (hrx : s.transmitting_ = false)
    (hn : s.uart_rx_buffer_.length ≤ MAX_UART_RX_BUFFER_SIZE_) :
    BinaryOutput.ingest s =
      ({ s with uart_rx := s.uart_rx.drop (ingest_quota s),
                uart_rx_buffer_ := s.uart_rx_buffer_ ++ s.uart_rx.take (ingest_quota s) },
        s.uart_rx.take (ingest_quota s)) := by
  unfold BinaryOutput.ingest ingest_quota
  simp only [MAX_UART_RX_BUFFER_SIZE_] at hn
  by_cases hfull : s.uart_rx_buffer_.length < MAX_UART_RX_BUFFER_SIZE_
  · by_cases hav : s.uart_rx.length > 0
    · have hfull2 : s.uart_rx_buffer_.length < 256 := hfull
      simp [hrx, hfull2, hav, bo_read_loop_eq, MAX_BYTES_PER_LOOP, MAX_UART_RX_BUFFER_SIZE_]
    · have he : s.uart_rx = [] := by
        cases h : s.uart_rx with
        | nil => rfl
        | cons a l => rw [h] at hav; simp at hav
      cases s
      simp only at he
      subst he
      simp [hrx, hfull]
  · have hz : 256 - s.uart_rx_buffer_.length = 0 := by
      simp only [MAX_UART_RX_BUFFER_SIZE_] at hfull; omega
    cases s
    simp only at hz hfull
    simp [hfull, hz]

/-- C13: in the binary-output variant, for a tick entered with `transmitting_` clear, a
staging buffer of `n ≤ 256` bytes and pending UART bytes `q`, the ingest block removes
exactly the first `k = min(|q|, 64, 256 - n)` bytes of `q` and appends exactly those, in the
same order, to the end of the staging buffer, leaving every other member alone; the bytes
taken from the UART are the bytes appended, and `k ≤ 64`.  The same holds for what the
whole `loop()` call takes from the UART. -/
theorem C13_ingest_takes_min (s : Server) (hrx : s.transmitting_ = false)
    (hn : s.uart_rx_buffer_.length ≤ MAX_UART_RX_BUFFER_SIZE_) :
    (BinaryOutput.ingest s).1 =
      { s with uart_rx := s.uart_rx.drop (ingest_quota s),
               uart_rx_buffer_ := s.uart_rx_buffer_ ++ s.uart_rx.take (ingest_quota s) } ∧
    (BinaryOutput.ingest s).2 = s.uart_rx.take (ingest_quota s) ∧
    (s.uart_rx.take (ingest_quota s)).length = ingest_quota s ∧
    ingest_quota s ≤ 64 ∧
    ((BinaryOutput.ingest s).1.uart_rx_buffer_.length
      = s.uart_rx_buffer_.length + ingest_quota s) ∧
    (BinaryOutput.loop s).2.ingested = s.uart_rx.take (ingest_quota s) ∧
    (BinaryOutput.loop s).1.uart_rx = s.uart_rx.drop (ingest_quota s) := by
  have e := bo_ingest_eq s hrx hn
  have hk : (s.uart_rx.take (ingest_quota s)).length = ingest_quota s := by
    simp only [List.length_take, ingest_quota]; omega
  refine ⟨by rw [e], by rw [e], hk, by unfold ingest_quota; omega, ?_, ?_, ?_⟩
  · rw [e]; simp only [List.length_append, hk]
  · simp only [BinaryOutput.loop, e]
  · simp only [BinaryOutput.loop, cleanup_uart_rx]
    rcases bo_dispatch_cases (BinaryOutput.ingest s).1 with d | d <;> rw [d, e]

/-- C13 at a concrete state: 250 bytes staged and 100 pending; six bytes are taken. -/
theorem C13_ingest_takes_min_witness :
    ({ idle_server [ready_client 1 0] (List.range 250) with
        uart_rx := List.range 100 } : Server).transmitting_ = false ∧
    ingest_quota { idle_server [ready_client 1 0] (List.range 250) with
        uart_rx := List.range 100 } = 6 ∧
    (BinaryOutput.ingest { idle_server [ready_client 1 0] (List.range 250) with
        uart_rx := List.range 100 }).2
      = List.take (ingest_quota { idle_server [ready_client 1 0] (List.range 250) with
        uart_rx := List.range 100 }) (List.range 100) :=
  ⟨rfl, by simp [ingest_quota, idle_server],
    (C13_ingest_takes_min { idle_server [ready_client 1 0] (List.range 250) with
        uart_rx := List.range 100 } rfl
      (by simp [idle_server, MAX_UART_RX_BUFFER_SIZE_])).2.1⟩

/-! ## Registration -/

/-- C14: `handle_new_client` leaves the bridge as it is for a null handle and appends a
non-null handle at the end of the registry.  With `t = client_timeout_ms_`: when `t > 0`
the appended client carries the receive timeout `t / 1000` seconds, which satisfies
`1000 * (t / 1000) ≤ t < 1000 * (t / 1000 + 1)` and is `0` for `0 < t < 1000`; when `t = 0`
the client is appended as it came, no timeout being set.  With the default of 300000 ms
the timeout is 300 s.  Natural-number division agrees with `uint32_t` division here. -/
theorem C14_timeout_applied_at_registration (s : Server) (c : AsyncClient) :
    handle_new_client s none = s ∧
    (∃ c1, handle_new_client s (some c) = { s with clients_ := s.clients_ ++ [c1] } ∧
      c1.id = c.id ∧ c1.connected = c.connected ∧ c1.canSend = c.canSend ∧
      c1.space = c.space) ∧
    (s.client_timeout_ms_ > 0 →
      handle_new_client s (some c) = { s with clients_ := s.clients_ ++
        [{ c with rx_timeout_s := s.client_timeout_ms_ / 1000 }] } ∧
      1000 * (s.client_timeout_ms_ / 1000) ≤ s.client_timeout_ms_ ∧
      s.client_timeout_ms_ < 1000 * (s.client_timeout_ms_ / 1000 + 1)) ∧
    (0 < s.client_timeout_ms_ ∧ s.client_timeout_ms_ < 1000 →
      handle_new_client s (some c) = { s with clients_ := s.clients_ ++
        [{ c with rx_timeout_s := 0 }] }) ∧
    (s.client_timeout_ms_ = 0 →
      handle_new_client s (some c) = { s with clients_ := s.clients_ ++ [c] }) ∧
    (s.client_timeout_ms_ = 300000 →
      handle_new_client s (some c) = { s with clients_ := s.clients_ ++
        [{ c with rx_timeout_s := 300 }] }) := by
  refine ⟨rfl, ?_, ?_, ?_, ?_, ?_⟩
  · refine ⟨if s.client_timeout_ms_ > 0 then
        { c with rx_timeout_s := s.client_timeout_ms_ / 1000 } else c, rfl, ?_⟩
    split <;> exact ⟨rfl, rfl, rfl, rfl⟩
  · intro h
    refine ⟨by simp [handle_new_client, h], ?_, ?_⟩
    · exact Nat.mul_div_le _ _
    · exact Nat.lt_mul_div_succ _ (by decide)
  · rintro ⟨h1, h2⟩
    have hz : s.client_timeout_ms_ / 1000 = 0 := Nat.div_eq_of_lt h2
    simp [handle_new_client, h1, hz]
  · intro h
    simp [handle_new_client, h]
  · intro h
    simp [handle_new_client, h]

/-- C14 at the default configuration: a client accepted by a bridge with the default
timeout of 300000 ms is registered with a receive timeout of 300 s. -/
theorem C14_timeout_applied_at_registration_witness :
    (idle_server [] []).client_timeout_ms_ = 300000 ∧
    handle_new_client (idle_server [] []) (some (ready_client 7 100))
      = { idle_server [] [] with
          clients_ := [] ++ [{ ready_client 7 100 with rx_timeout_s := 300 }] } :=
  ⟨rfl, (C14_timeout_applied_at_registration (idle_server [] [])
    (ready_client 7 100)).2.2.2.2.2 rfl⟩

/-! ## A registry with no connected client -/

theorem bo_dispatch_loop_stale (buf : List Nat) (cs : List AsyncClient) (flag : Bool)
    (h : ∀ c ∈ cs, c.connected = false) :
    BinaryOutput.dispatch_loop buf cs flag = ([], flag) := by
  induction cs with
  | nil => rfl
  | cons c cs ih =>
    have hc := h c (List.mem_cons_self _ _)
    rw [BinaryOutput.dispatch_loop, ih (fun d hd => h d (List.mem_cons_of_mem _ hd))]
    simp [hc]

theorem raw_dispatch_loop_stale (buf : List Nat) (cs : List AsyncClient) (flag : Bool)
    (h : ∀ c ∈ cs, c.connected = false) :
    RawPin.dispatch_loop buf cs flag = ([], flag) := by
  induction cs with
  | nil => rfl
  | cons c cs ih =>
    have hc := h c (List.mem_cons_self _ _)
    rw [RawPin.dispatch_loop, ih (fun d hd => h d (List.mem_cons_of_mem _ hd))]
    simp [hc]

/-- C17: in both variants, when the dispatch block begins with a non-empty staging buffer
and a non-empty registry none of whose clients reports connected, it makes no `add()`
call and clears the staging buffer, every other member staying as it was.  Over a whole
`loop()` call entered in such a state the buffer ends empty, nothing is handed to any
client, and the registry is reaped to empty. -/
theorem C17_stale_registry_loses_buffer (r : Nat → Nat) (s : Server)
    (hne : s.uart_rx_buffer_ ≠ []) (hcl : s.clients_ ≠ [])
    (hstale : ∀ c ∈ s.clients_, c.connected = false) :
    BinaryOutput.dispatch s = ({ s with uart_rx_buffer_ := [] }, []) ∧
    RawPin.dispatch s = ({ s with uart_rx_buffer_ := [] }, []) ∧
    ((BinaryOutput.loop s).1.uart_rx_buffer_ = [] ∧ (BinaryOutput.loop s).2.enqueued = [] ∧
      (BinaryOutput.loop s).1.clients_ = []) ∧
    ((RawPin.loop r s).1.uart_rx_buffer_ = [] ∧ (RawPin.loop r s).2.enqueued = [] ∧
      (RawPin.loop r s).1.clients_ = []) := by
  have hfilter : ∀ cs : List AsyncClient, (∀ c ∈ cs, c.connected = false) →
      cs.filter (fun c => c.connected) = [] := by
    intro cs h
    simp only [List.filter_eq_nil_iff]
    intro c hc
    simp [h c hc]
  have hb : ∀ a : Server, a.clients_ = s.clients_ →
      (BinaryOutput.dispatch a).1.uart_rx_buffer_ = [] ∧ (BinaryOutput.dispatch a).2 = [] ∧
        (BinaryOutput.dispatch a).1.clients_ = s.clients_ := by
    intro a ha
    unfold BinaryOutput.dispatch
    rw [ha, bo_dispatch_loop_stale _ _ _ hstale]
    cases hbuf : a.uart_rx_buffer_ <;> simp [hcl, ha, hbuf]
  have hp : ∀ a : Server, a.clients_ = s.clients_ →
      (RawPin.dispatch a).1.uart_rx_buffer_ = [] ∧ (RawPin.dispatch a).2 = [] ∧
        (RawPin.dispatch a).1.clients_ = s.clients_ := by
    intro a ha
    unfold RawPin.dispatch
    rw [ha, raw_dispatch_loop_stale _ _ _ hstale]
    cases hbuf : a.uart_rx_buffer_ <;> simp [hcl, ha, hbuf]
  refine ⟨?_, ?_, ?_, ?_⟩
  · rw [bo_dispatch_eq s hne hcl, bo_dispatch_loop_stale _ _ _ hstale]
    simp
  · unfold RawPin.dispatch
    rw [raw_dispatch_loop_stale _ _ _ hstale]
    simp [hne, hcl]
  · obtain ⟨h1, h2, h3⟩ := hb (BinaryOutput.ingest s).1 (bo_ingest_clients s)
    refine ⟨h1, h2, ?_⟩
    simp only [BinaryOutput.loop, cleanup_eq_filter, h3]
    exact hfilter _ hstale
  · obtain ⟨h1, h2, h3⟩ := hp (RawPin.ingest r s).1 (raw_ingest_clients r s)
    refine ⟨h1, h2, ?_⟩
    simp only [RawPin.loop, cleanup_eq_filter, h3]
    exact hfilter _ hstale

/-- C17 at a concrete state: two disconnected clients not yet reaped and three staged
bytes; the bytes are dropped and nobody receives them. -/
theorem C17_stale_registry_loses_buffer_witness :
    (stale_pair [1, 2, 3]).uart_rx_buffer_ ≠ [] ∧ (stale_pair [1, 2, 3]).clients_ ≠ [] ∧
    (∀ c ∈ (stale_pair [1, 2, 3]).clients_, c.connected = false) ∧
    BinaryOutput.dispatch (stale_pair [1, 2, 3]) = (stale_pair [], []) ∧
    RawPin.dispatch (stale_pair [1, 2, 3]) = (stale_pair [], []) :=
  ⟨by decide, by decide, by decide,
    (C17_stale_registry_loses_buffer read_array_count (stale_pair [1, 2, 3])
      (by decide) (by decide) (by decide)).1,
    (C17_stale_registry_loses_buffer read_array_count (stale_pair [1, 2, 3])
      (by decide) (by decide) (by decide)).2.1⟩

/-! ## The transmitting flag along a run -/

theorem bo_ingest_transmitting (s : Server) :
    (BinaryOutput.ingest s).1.transmitting_ = s.transmitting_ := by
  unfold BinaryOutput.ingest
  split
  · split <;> rfl
  · rfl

theorem raw_ingest_transmitting (r : Nat → Nat) (s : Server) :
    (RawPin.ingest r s).1.transmitting_ = s.transmitting_ := by
  unfold RawPin.ingest
  split
  · dsimp only
    split
    · split
      · split <;> rfl
      · rfl
    · rfl
  · rfl

theorem bo_loop_transmitting (s : Server) :
    (BinaryOutput.loop s).1.transmitting_ = s.transmitting_ := by
  have hc : ∀ a : Server, (cleanup_disconnected_clients a).transmitting_ = a.transmitting_ :=
    fun _ => rfl
  simp only [BinaryOutput.loop, hc]
  rcases bo_dispatch_cases (BinaryOutput.ingest s).1 with e | e <;> rw [e]
  · exact bo_ingest_transmitting s
  · exact bo_ingest_transmitting s

theorem raw_loop_transmitting (r : Nat → Nat) (s : Server) :
    (RawPin.loop r s).1.transmitting_ = s.transmitting_ := by
  have hc : ∀ a : Server, (cleanup_disconnected_clients a).transmitting_ = a.transmitting_ :=
    fun _ => rfl
  simp only [RawPin.loop, hc]
  rcases raw_dispatch_cases (RawPin.ingest r s).1 with e | e <;> rw [e]
  · exact raw_ingest_transmitting r s
  · exact raw_ingest_transmitting r s

theorem bo_handle_data_transmitting (has_binary_output : Bool) (s : Server)
    (tcp_data : List Nat) :
    (BinaryOutput.handle_data has_binary_output s tcp_data).1.transmitting_
      = s.transmitting_ := by
  unfold BinaryOutput.handle_data
  cases h : s.transmitting_ <;> simp [h]

theorem raw_handle_data_transmitting (s : Server) (tcp_data : List Nat) :
    (RawPin.handle_data s tcp_data).1.transmitting_ = s.transmitting_ := by
  unfold RawPin.handle_data
  cases h : s.transmitting_ <;> cases h2 : s.tx_enable_configured <;> simp [h]

theorem handle_new_client_transmitting (s : Server) (client : Option AsyncClient) :
    (handle_new_client s client).transmitting_ = s.transmitting_ := by
  cases client <;> rfl

theorem run_transmitting (loopF : Server → Server × Tick)
    (dataF : Server → List Nat → Server × List Effect)
    (hloop : ∀ s, (loopF s).1.transmitting_ = s.transmitting_)
    (hdata : ∀ s p, (dataF s p).1.transmitting_ = s.transmitting_)
    (es : List Event) (s : Server) :
    (run loopF dataF s es).1.transmitting_ = s.transmitting_ := by
  induction es generalizing s with
  | nil => rfl
  | cons e es ih =>
    simp only [run]
    rw [ih]
    cases e with
    | tick => exact hloop s
    | serial bytes => rfl
    | accept client => exact handle_new_client_transmitting s client
    | client_change id connected canSend space => rfl
    | data tcp_data => exact hdata s tcp_data
    | disconnect client => rfl
    | error client code => rfl
    | timeout client time => rfl

theorem bo_handle_data_writes (has_binary_output : Bool) (s : Server) (tcp_data : List Nat)
    (h : s.transmitting_ = false) :
    Effect.write tcp_data ∈ (BinaryOutput.handle_data has_binary_output s tcp_data).2 := by
  unfold BinaryOutput.handle_data
  simp [h]

theorem raw_handle_data_writes (s : Server) (tcp_data : List Nat)
    (h : s.transmitting_ = false) (hpin : s.tx_enable_configured = true) :
    (RawPin.handle_data s tcp_data).2
      = [Effect.assert, Effect.write tcp_data, Effect.flush, Effect.deassert] := by
  unfold RawPin.handle_data
  simp [h, hpin]

theorem raw_ingest_taken (r : Nat → Nat) (s : Server) (h : s.transmitting_ = false)
    (hroom : s.uart_rx_buffer_.length < MAX_UART_RX_BUFFER_SIZE_) :
    (RawPin.ingest r s).2 = s.uart_rx.take (min (min s.uart_rx.length UART_READ_CHUNK_SIZE)
      (MAX_UART_RX_BUFFER_SIZE_ - s.uart_rx_buffer_.length)) := by
  unfold RawPin.ingest
  simp only [h, hroom, Bool.not_false, decide_True, Bool.and_self, if_true]
  split
  · split
    · split <;> rfl
    · next hz =>
      have : min (min s.uart_rx.length UART_READ_CHUNK_SIZE)
          (MAX_UART_RX_BUFFER_SIZE_ - s.uart_rx_buffer_.length) = 0 := by omega
      rw [this]; rfl
  · next hz =>
    have : s.uart_rx.length = 0 := by omega
    simp [this]

/-- C16: with every `loop()` call and every callback (accept, data, disconnect, error,
timeout) run as one atomic step, `transmitting_` is clear in every state reachable from a
state in which it is clear, in both variants: `handle_data` returns with the flag as it
found it, and nothing else writes it.  So at every reachable state `handle_data` does not
take its busy branch (the payload is written to the serial interface) and the ingest
block of `loop()` is governed by the room in the buffer alone. -/
theorem C16_transmitting_flag_stays_clear (has_binary_output : Bool) (r : Nat → Nat)
    (s0 : Server) (h0 : s0.transmitting_ = false) (es : List Event) (tcp_data : List Nat) :
    ((BinaryOutput.run has_binary_output s0 es).1.transmitting_ = false ∧
      (BinaryOutput.handle_data has_binary_output
        (BinaryOutput.run has_binary_output s0 es).1 tcp_data).1.transmitting_ = false ∧
      Effect.write tcp_data ∈ (BinaryOutput.handle_data has_binary_output
        (BinaryOutput.run has_binary_output s0 es).1 tcp_data).2 ∧
      ((BinaryOutput.run has_binary_output s0 es).1.uart_rx_buffer_.length
          < MAX_UART_RX_BUFFER_SIZE_ →
        (BinaryOutput.ingest (BinaryOutput.run has_binary_output s0 es).1).2
          = (BinaryOutput.run has_binary_output s0 es).1.uart_rx.take
              (ingest_quota (BinaryOutput.run has_binary_output s0 es).1))) ∧
    ((RawPin.run r s0 es).1.transmitting_ = false ∧
      (RawPin.handle_data (RawPin.run r s0 es).1 tcp_data).1.transmitting_ = false ∧
      ((RawPin.run r s0 es).1.tx_enable_configured = true →
        (RawPin.handle_data (RawPin.run r s0 es).1 tcp_data).2
          = [Effect.assert, Effect.write tcp_data, Effect.flush, Effect.deassert]) ∧
      ((RawPin.run r s0 es).1.uart_rx_buffer_.length < MAX_UART_RX_BUFFER_SIZE_ →
        (RawPin.ingest r (RawPin.run r s0 es).1).2
          = (RawPin.run r s0 es).1.uart_rx.take
              (min (min (RawPin.run r s0 es).1.uart_rx.length UART_READ_CHUNK_SIZE)
                (MAX_UART_RX_BUFFER_SIZE_
                  - (RawPin.run r s0 es).1.uart_rx_buffer_.length)))) := by
  have hb : (BinaryOutput.run has_binary_output s0 es).1.transmitting_ = false := by
    unfold BinaryOutput.run
    rw [run_transmitting _ _ bo_loop_transmitting
      (bo_handle_data_transmitting has_binary_output), h0]
  have hp : (RawPin.run r s0 es).1.transmitting_ = false := by
    unfold RawPin.run
    rw [run_transmitting _ _ (raw_loop_transmitting r) raw_handle_data_transmitting, h0]
  refine ⟨⟨hb, ?_, bo_handle_data_writes _ _ _ hb, ?_⟩,
    ⟨hp, ?_, raw_handle_data_writes _ _ hp, raw_ingest_taken r _ hp⟩⟩
  · rw [bo_handle_data_transmitting, hb]
  · intro hroom
    rw [bo_ingest_eq _ hb (Nat.le_of_lt hroom)]
  · rw [raw_handle_data_transmitting, hp]

/-- C16 at a concrete run: a payload arrives, a tick runs, a client is accepted and times
out; the flag is clear at the end in both variants. -/
theorem C16_transmitting_flag_stays_clear_witness :
    (idle_server [] []).transmitting_ = false ∧
    (BinaryOutput.run true (idle_server [] [])
      [.data [1, 2], .serial [5], .tick, .accept (some (ready_client 1 10)),
        .timeout (ready_client 1 10) 300, .data [3]]).1.transmitting_ = false ∧
    (RawPin.run read_array_count (idle_server [] [])
      [.data [1, 2], .serial [5], .tick, .accept (some (ready_client 1 10)),
        .timeout (ready_client 1 10) 300, .data [3]]).1.transmitting_ = false :=
  ⟨rfl,
    (C16_transmitting_flag_stays_clear true read_array_count (idle_server [] []) rfl
      [.data [1, 2], .serial [5], .tick, .accept (some (ready_client 1 10)),
        .timeout (ready_client 1 10) 300, .data [3]] []).1.1,
    (C16_transmitting_flag_stays_clear true read_array_count (idle_server [] []) rfl
      [.data [1, 2], .serial [5], .tick, .accept (some (ready_client 1 10)),
        .timeout (ready_client 1 10) 300, .data [3]] []).2.1⟩

/-! ## The size ceiling of the raw-pin variant -/

theorem raw_ceiling_discard_clears (s : Server) (h : RawPin.ceiling_discard s = true) :
    (RawPin.dispatch s).1.uart_rx_buffer_ = [] := by
  unfold RawPin.ceiling_discard at h
  simp only [Bool.and_eq_true, Bool.not_eq_true', decide_eq_true_eq] at h
  obtain ⟨⟨⟨h1, h2⟩, h3⟩, h4⟩ := h
  unfold RawPin.dispatch
  simp [h1, h2, h3, h4]

theorem raw_ceiling_discard_beyond_twice_capacity :
    RawPin.ceiling_discard (stalled_pair (List.range 513)) = true ∧
    (RawPin.dispatch (stalled_pair (List.range 513))).1.uart_rx_buffer_ = [] := by
  have h : RawPin.ceiling_discard (stalled_pair (List.range 513)) = true := by
    simp [RawPin.ceiling_discard, RawPin.dispatch_loop, stalled_pair, idle_server,
      ready_client, MAX_UART_RX_BUFFER_SIZE_]
  exact ⟨h, raw_ceiling_discard_clears _ h⟩

theorem raw_dispatch_retains (s : Server)
    (hlen : s.uart_rx_buffer_.length ≤ MAX_UART_RX_BUFFER_SIZE_ * 2)
    (hflag : (RawPin.dispatch_loop s.uart_rx_buffer_ s.clients_ true).2 = false) :
    (RawPin.dispatch s).1 = s := by
  have hc : ¬ s.uart_rx_buffer_.length > MAX_UART_RX_BUFFER_SIZE_ * 2 := by omega
  unfold RawPin.dispatch
  split
  · split
    · next hempty =>
      have : s.clients_ = [] := by simpa using hempty
      rw [this] at hflag
      simp [RawPin.dispatch_loop] at hflag
    · simp [hflag, hc]
  · rfl

/-- C15: in the raw-pin variant, from any state with an empty staging buffer and after any
sequence of `loop()` calls and events, the staging buffer seen by the dispatch block of
the next `loop()` call holds at most 256 bytes, so it is not longer than `2 * 256`, the
path condition of the discard at line 113 is false, and a pass that ends with the flag
cleared leaves the state as it was: the buffer is retained, not cleared by the ceiling.
`read_array` is assumed to hand back no more than the number of bytes asked for. -/
theorem C15_ceiling_never_reached (r : Nat → Nat) (hr : ∀ m, r m ≤ m) (s0 : Server)
    (h0 : s0.uart_rx_buffer_ = []) (es : List Event) :
    (RawPin.ingest r (RawPin.run r s0 es).1).1.uart_rx_buffer_.length
      ≤ MAX_UART_RX_BUFFER_SIZE_ ∧
    ¬ (RawPin.ingest r (RawPin.run r s0 es).1).1.uart_rx_buffer_.length
      > MAX_UART_RX_BUFFER_SIZE_ * 2 ∧
    RawPin.ceiling_discard (RawPin.ingest r (RawPin.run r s0 es).1).1 = false ∧
    ((RawPin.dispatch_loop (RawPin.ingest r (RawPin.run r s0 es).1).1.uart_rx_buffer_
        (RawPin.ingest r (RawPin.run r s0 es).1).1.clients_ true).2 = false →
      (RawPin.dispatch (RawPin.ingest r (RawPin.run r s0 es).1).1).1
        = (RawPin.ingest r (RawPin.run r s0 es).1).1 ∧
      (RawPin.loop r (RawPin.run r s0 es).1).1.uart_rx_buffer_
        = (RawPin.ingest r (RawPin.run r s0 es).1).1.uart_rx_buffer_) := by
  have hs : (RawPin.run r s0 es).1.uart_rx_buffer_.length ≤ MAX_UART_RX_BUFFER_SIZE_ := by
    unfold RawPin.run
    exact run_buffer_le _ _ (raw_loop_buffer_le r hr) raw_handle_data_buffer es s0
      (by simp [h0])
  obtain ⟨added, hbuf, hbound⟩ := raw_ingest_buffer r hr (RawPin.run r s0 es).1
  have ha : (RawPin.ingest r (RawPin.run r s0 es).1).1.uart_rx_buffer_.length
      ≤ MAX_UART_RX_BUFFER_SIZE_ := by
    rw [hbuf]; exact hbound hs
  have hnot : ¬ (RawPin.ingest r (RawPin.run r s0 es).1).1.uart_rx_buffer_.length
      > MAX_UART_RX_BUFFER_SIZE_ * 2 := by omega
  refine ⟨ha, hnot, ?_, ?_⟩
  · unfold RawPin.ceiling_discard
    simp [hnot]
  · intro hflag
    have e := raw_dispatch_retains _ (by omega) hflag
    exact ⟨e, by simp only [RawPin.loop, cleanup_buffer, e]⟩

/-- C15 at a concrete run: 600 bytes arrive while the only client has no headroom; after
six ticks the dispatch block sees at most 256 bytes and the discard is not taken. -/
theorem C15_ceiling_never_reached_witness :
    (∀ m, read_array_count m ≤ m) ∧ (idle_server [ready_client 1 0] []).uart_rx_buffer_ = [] ∧
    RawPin.ceiling_discard (RawPin.ingest read_array_count
      (RawPin.run read_array_count (idle_server [ready_client 1 0] [])
        [.serial (List.range 600), .tick, .tick, .tick, .tick, .tick, .tick]).1).1 = false :=
  ⟨fun _ => Nat.le_refl _, rfl,
    (C15_ceiling_never_reached read_array_count (fun _ => Nat.le_refl _)
      (idle_server [ready_client 1 0] []) rfl
      [.serial (List.range 600), .tick, .tick, .tick, .tick, .tick, .tick]).2.2.1⟩

/-! ## Two ticks of the binary-output variant around an accept -/

theorem bo_loop_no_sink (s : Server) (hbuf : s.uart_rx_buffer_ = []) (hreg : s.clients_ = [])
    (hrx : s.transmitting_ = false) (hlen : s.uart_rx.length ≤ 64) :
    BinaryOutput.loop s = ({ s with uart_rx := [] }, ⟨s.uart_rx, []⟩) := by
  obtain ⟨cl, buf, tr, cfg, d1, d2, tmo, tmp, rx, lvl⟩ := s
  simp only at hbuf hreg hrx hlen
  subst hbuf hreg hrx
  have e := bo_ingest_eq ⟨[], [], false, cfg, d1, d2, tmo, tmp, rx, lvl⟩ rfl (by simp)
  have hq : ingest_quota ⟨[], [], false, cfg, d1, d2, tmo, tmp, rx, lvl⟩ = rx.length := by
    simp only [ingest_quota, List.length_nil]; omega
  rw [hq] at e
  simp only [List.take_length, List.drop_length, List.nil_append] at e
  simp only [BinaryOutput.loop, e, cleanup_eq_filter]
  cases rx <;> simp [BinaryOutput.dispatch]

theorem bo_loop_single_ready (s : Server) (c : AsyncClient)
    (hbuf : s.uart_rx_buffer_ = []) (hreg : s.clients_ = [c])
    (hrx : s.transmitting_ = false) (hpos : s.uart_rx ≠ []) (hlen : s.uart_rx.length ≤ 64)
    (hc : c.connected = true) (hs : c.canSend = true) (hsp : s.uart_rx.length ≤ c.space) :
    BinaryOutput.loop s = ({ s with uart_rx := [] }, ⟨s.uart_rx, [(c.id, s.uart_rx)]⟩) := by
  obtain ⟨cl, buf, tr, cfg, d1, d2, tmo, tmp, rx, lvl⟩ := s
  simp only at hbuf hreg hrx hlen hpos hsp
  subst hbuf hreg hrx
  have e := bo_ingest_eq ⟨[c], [], false, cfg, d1, d2, tmo, tmp, rx, lvl⟩ rfl (by simp)
  have hq : ingest_quota ⟨[c], [], false, cfg, d1, d2, tmo, tmp, rx, lvl⟩ = rx.length := by
    simp only [ingest_quota, List.length_nil]; omega
  rw [hq] at e
  simp only [List.take_length, List.drop_length, List.nil_append] at e
  simp only [BinaryOutput.loop, e, cleanup_eq_filter]
  simp [BinaryOutput.dispatch, BinaryOutput.dispatch_loop, hpos, hc, hs, hsp]

/-- C12: the two-tick scenario in the binary-output variant.  Start with an empty staging
buffer, an empty registry, `transmitting_` clear and nothing pending on the UART.  Sixty
bytes arrive and `loop()` runs: the staging buffer is empty afterwards and nothing was
handed to any client.  Then a connected, send-ready client with headroom of at least 40
is accepted through `handle_new_client`, forty more bytes arrive and `loop()` runs again:
over the whole run the client is handed exactly one block, the forty new bytes in order,
and the staging buffer is empty at the end. -/
theorem C12_two_tick_scenario (has_binary_output : Bool) (s0 : Server) (c : AsyncClient)
    (first second : List Nat)
    (hbuf : s0.uart_rx_buffer_ = []) (hreg : s0.clients_ = [])
    (hrx : s0.transmitting_ = false) (hq : s0.uart_rx = [])
    (h60 : first.length = 60) (h40 : second.length = 40)
    (hc : c.connected = true) (hs : c.canSend = true) (hsp : 40 ≤ c.space) :
    ((BinaryOutput.run has_binary_output s0 [.serial first, .tick]).1.uart_rx_buffer_ = [] ∧
      (BinaryOutput.run has_binary_output s0 [.serial first, .tick]).2.enqueued = [] ∧
      (BinaryOutput.run has_binary_output s0 [.serial first, .tick]).2.ingested = first) ∧
    ((BinaryOutput.run has_binary_output s0
        [.serial first, .tick, .accept (some c), .serial second, .tick]).2.enqueued
          = [(c.id, second)] ∧
      delivered c.id (BinaryOutput.run has_binary_output s0
        [.serial first, .tick, .accept (some c), .serial second, .tick]).2.enqueued = second ∧
      (BinaryOutput.run has_binary_output s0
        [.serial first, .tick, .accept (some c), .serial second, .tick]).1.uart_rx_buffer_
          = [] ∧
      (BinaryOutput.run has_binary_output s0
        [.serial first, .tick, .accept (some c), .serial second, .tick]).2.ingested
          = first ++ second) := by
  obtain ⟨cl, buf, tr, cfg, d1, d2, tmo, tmp, rx, lvl⟩ := s0
  simp only at hbuf hreg hrx hq
  subst hbuf hreg hrx hq
  have t1 : BinaryOutput.loop ⟨[], [], false, cfg, d1, d2, tmo, tmp, first, lvl⟩
      = (⟨[], [], false, cfg, d1, d2, tmo, tmp, [], lvl⟩, ⟨first, []⟩) :=
    bo_loop_no_sink _ rfl rfl rfl (by simp [h60])
  obtain ⟨c1, hacc, hid, hcc, hcs, hcsp⟩ :
      ∃ c1, handle_new_client ⟨[], [], false, cfg, d1, d2, tmo, tmp, [], lvl⟩ (some c)
          = ⟨[c1], [], false, cfg, d1, d2, tmo, tmp, [], lvl⟩ ∧ c1.id = c.id ∧
        c1.connected = true ∧ c1.canSend = true ∧ 40 ≤ c1.space := by
    refine ⟨if tmo > 0 then { c with rx_timeout_s := tmo / 1000 } else c, ?_, ?_⟩
    · simp [handle_new_client]
    · split <;> exact ⟨rfl, hc, hs, hsp⟩
  have hne : second ≠ [] := by
    intro h; rw [h] at h40; simp at h40
  have t2 : BinaryOutput.loop ⟨[c1], [], false, cfg, d1, d2, tmo, tmp, second, lvl⟩
      = (⟨[c1], [], false, cfg, d1, d2, tmo, tmp, [], lvl⟩, ⟨second, [(c.id, second)]⟩) := by
    rw [← hid]
    exact bo_loop_single_ready _ c1 rfl rfl rfl hne (by simp [h40]) hcc hcs
      (by simp only [h40]; exact hcsp)
  refine ⟨?_, ?_⟩
  · simp [BinaryOutput.run, run, step, t1]
  · simp [BinaryOutput.run, run, step, t1, hacc, t2, delivered]

/-- C12 with concrete data: the bytes 0..59, then a client with headroom 40 and the bytes
100..139. -/
theorem C12_two_tick_scenario_witness :
    ((idle_server [] []).uart_rx_buffer_ = [] ∧ (idle_server [] []).clients_ = [] ∧
      (idle_server [] []).transmitting_ = false ∧ (idle_server [] []).uart_rx = [] ∧
      (List.range 60).length = 60 ∧ (List.range' 100 40).length = 40 ∧
      (ready_client 1 40).connected = true ∧ (ready_client 1 40).canSend = true ∧
      40 ≤ (ready_client 1 40).space) ∧
    (BinaryOutput.run true (idle_server [] [])
      [.serial (List.range 60), .tick]).1.uart_rx_buffer_ = [] ∧
    (BinaryOutput.run true (idle_server [] [])
      [.serial (List.range 60), .tick, .accept (some (ready_client 1 40)),
        .serial (List.range' 100 40), .tick]).2.enqueued
      = [((ready_client 1 40).id, List.range' 100 40)] :=
  ⟨⟨rfl, rfl, rfl, rfl, by simp, by simp, rfl, rfl, Nat.le_refl _⟩,
    (C12_two_tick_scenario true (idle_server [] []) (ready_client 1 40) (List.range 60)
      (List.range' 100 40) rfl rfl rfl rfl (by simp) (by simp) rfl rfl (Nat.le_refl _)).1.1,
    (C12_two_tick_scenario true (idle_server [] []) (ready_client 1 40) (List.range 60)
      (List.range' 100 40) rfl rfl rfl rfl (by simp) (by simp) rfl rfl (Nat.le_refl _)).2.1⟩

end RS485StreamServer
